import Mathlib

/-
Verification development for the rainbowrogue simulation core.

The definitions below are a shallow embedding of the Rust sources:
  src/map/mod.rs        (World, Substrate, Tile, MapLayer, WorldFloor, Dungeon)
  src/ecs/components.rs (Position, Renderable, Viewshed, CombatStats, ...)
  src/ecs/resources.rs  (MovementContext, CombatLog)
  src/ecs/systems.rs    (WanderSystem, MovementSystem, step_towards/step_away)
  src/ecs/mod.rs        (EcsWorld: player_attack, spectral_nova,
                         blink_destination, use_consumable, queries)

Modelling conventions, stated once here:
  * Machine integers (i32) are embedded as Int.  The i32 saturating
    subtraction used for hit points saturates at the i32 bounds (NOT at 0);
    it is embedded exactly as such by i32SatSub below.
  * f32 distance comparisons `Pythagoras.distance2d(a,b) < r` are embedded
    as exact integer comparisons on squared distances (`distSq a b < r*r`),
    which agrees with the f32 computation for the integer coordinates and
    radii that occur in the program (|coord| < 2^11).
  * f32 hp-ratio comparisons `hp / max_hp <= 0.3` are embedded as the exact
    rational comparison `10*hp <= 3*max_hp`, which agrees with the f32
    computation for the positive hp ranges occurring in the program.
  * The external crate bracket_random is modelled by an abstract
    deterministic stream (structure RNG): `range lo hi` returns a value in
    [lo, hi) whenever lo < hi, and advances a counter.  Proofs use only
    determinism and the range-membership property, which are the library's
    contract.
  * specs' deferred entity deletion (`entities.delete` + `maintain`) is
    modelled as removal from the store effective at the end of the
    resolution step in which it was decided, matching the observable
    behaviour at the EcsWorld API boundary.
  * Log strings built with format! are embedded as a structured message
    type (Msg) carrying the same payloads, so that which message was
    emitted, and with which data, is preserved without string formatting.
-/

namespace RainbowRogue

/-- A 2-d integer point (bracket_geometry Point with i32 coordinates). -/
structure Point where
  x : Int
  y : Int
deriving DecidableEq, Repr

/-- Squared Euclidean distance between two points; used to embed the f32
`DistanceAlg::Pythagoras.distance2d` comparisons exactly. -/
def distSq (a b : Point) : Int :=
  (a.x - b.x) * (a.x - b.x) + (a.y - b.y) * (a.y - b.y)

/-- Rust `i32::clamp(-1, 1)` as used on step deltas. -/
def clampUnit (d : Int) : Int := max (-1) (min 1 d)

/-- Lower bound of i32. -/
def i32Min : Int := -(2 ^ 31)

/-- Upper bound of i32. -/
def i32Max : Int := 2 ^ 31 - 1

/-- Rust `i32::saturating_sub`: saturates at the i32 bounds, not at 0. -/
def i32SatSub (a b : Int) : Int := max i32Min (min i32Max (a - b))

/-- The 7 world-planes (src/map/mod.rs `enum World`). -/
inductive World where
  | Red
  | Orange
  | Yellow
  | Green
  | Blue
  | Indigo
  | Violet
deriving DecidableEq, Repr

/-- `World::spectrum_index`. -/
def World.spectrum_index : World → Nat
  | .Red => 0
  | .Orange => 1
  | .Yellow => 2
  | .Green => 3
  | .Blue => 4
  | .Indigo => 5
  | .Violet => 6

/-- The `SPECTRUM` constant: the 7 planes in order. -/
def SPECTRUM : List World :=
  [.Red, .Orange, .Yellow, .Green, .Blue, .Indigo, .Violet]

/-- bracket_terminal RGB color, via its `from_u8` constructor. -/
structure RGB where
  r : Nat
  g : Nat
  b : Nat
deriving DecidableEq, Repr

/-- `world_color` (src/map/mod.rs). -/
def world_color : World → RGB
  | .Red => ⟨255, 95, 86⟩
  | .Orange => ⟨255, 170, 64⟩
  | .Yellow => ⟨241, 241, 87⟩
  | .Green => ⟨126, 211, 33⟩
  | .Blue => ⟨96, 165, 255⟩
  | .Indigo => ⟨120, 98, 240⟩
  | .Violet => ⟨193, 126, 255⟩

/-- Model of the external bracket_random RandomNumberGenerator: a seed plus
a position in an abstract deterministic stream. -/
structure RNG where
  seed : Nat
  counter : Nat
deriving DecidableEq, Repr

/-- The deterministic stream underlying the RNG model. -/
def rngStream (seed counter : Nat) : Nat :=
  (seed * 1103515245 + counter * 12345 + 12345) % 4294967296

/-- `rng.range(lo, hi)`: a value in [lo, hi) (for lo < hi), advancing the
stream.  Matches the exclusive-upper-bound contract of bracket_random. -/
def RNG.range (r : RNG) (lo hi : Int) : Int × RNG :=
  (lo + ((rngStream r.seed r.counter % (hi - lo).toNat : Nat) : Int),
   ⟨r.seed, r.counter + 1⟩)

/-- `RandomNumberGenerator::seeded`. -/
def RNG.seeded (seed : Nat) : RNG := ⟨seed, 0⟩

/-- bracket_geometry `Rect` (x2/y2 exclusive for iteration). -/
structure Rect where
  x1 : Int
  y1 : Int
  x2 : Int
  y2 : Int
deriving DecidableEq, Repr

/-- `Rect::with_size`. -/
def Rect.with_size (x y w h : Int) : Rect := ⟨x, y, x + w, y + h⟩

/-- `Rect::center` (i32 division truncates toward zero). -/
def Rect.center (r : Rect) : Point :=
  ⟨Int.tdiv (r.x1 + r.x2) 2, Int.tdiv (r.y1 + r.y2) 2⟩

/-- `Rect::intersect` (overlap test). -/
def Rect.intersect (a b : Rect) : Bool :=
  decide (a.x1 ≤ b.x2 ∧ a.x2 ≥ b.x1 ∧ a.y1 ≤ b.y2 ∧ a.y2 ≥ b.y1)

/-- The half-open integer interval [a, b) as a list. -/
def intRange (a b : Int) : List Int :=
  (List.range (b - a).toNat).map (fun (i : Nat) => a + (i : Int))

/-- `Rect::for_each` enumeration order: y outer, x inner, upper bounds
exclusive. -/
def Rect.pointList (r : Rect) : List Point :=
  (intRange r.y1 r.y2).foldr
    (fun y acc => ((intRange r.x1 r.x2).map (fun x => Point.mk x y)) ++ acc) []

/-- One x-step of `corridor_path`'s first while loop. -/
def stepToward (c e : Int) : Int := if e > c then c + 1 else c - 1

/-- The x-phase of `corridor_path`: step cursor.x toward ex, collecting each
cursor position. -/
def corridorXsteps (cursor : Point) (ex : Int) : List Point :=
  if _h : cursor.x = ex then []
  else
    let c' : Point := ⟨stepToward cursor.x ex, cursor.y⟩
    c' :: corridorXsteps c' ex
termination_by (ex - cursor.x).natAbs
decreasing_by
  simp only [stepToward]
  split <;> omega

/-- The y-phase of `corridor_path`. -/
def corridorYsteps (cursor : Point) (ey : Int) : List Point :=
  if _h : cursor.y = ey then []
  else
    let c' : Point := ⟨cursor.x, stepToward cursor.y ey⟩
    c' :: corridorYsteps c' ey
termination_by (ey - cursor.y).natAbs
decreasing_by
  simp only [stepToward]
  split <;> omega

/-- `corridor_path` (src/map/mod.rs): L-shaped corridor, horizontal run then
vertical run, with the source's final last-point check. -/
def corridor_path (start finish : Point) : List Point :=
  let xs := corridorXsteps start finish.x
  let afterX : Point := ⟨finish.x, start.y⟩
  let ys := corridorYsteps afterX finish.y
  let path := start :: (xs ++ ys)
  if path.getLast? ≠ some finish then path ++ [finish] else path

/-- Floor identifier (`FloorId(pub u32)`). -/
abbrev FloorId := Nat

/-- `Substrate` (src/map/mod.rs): shared layout skeleton of one floor. -/
structure Substrate where
  width : Int
  height : Int
  rooms : List Rect
  corridors : List (List Point)
  stairs_up : List Point
  stairs_down : List Point
  spawn : Point
deriving DecidableEq, Repr

/-- `Substrate::new`. -/
def Substrate.new (width height : Int) : Substrate :=
  { width := width, height := height, rooms := [], corridors := [],
    stairs_up := [], stairs_down := [],
    spawn := ⟨Int.tdiv width 2, Int.tdiv height 2⟩ }

/-- One iteration of the room-placement loop of `Substrate::procedural`;
the state is the RNG plus the substrate built so far. -/
def proceduralStep (width height : Int) (st : RNG × Substrate) : RNG × Substrate :=
  let (rng, sub) := st
  let (room_w, rng1) := rng.range 6 14
  let (room_h, rng2) := rng1.range 5 10
  if room_w ≥ width - 4 ∨ room_h ≥ height - 4 then (rng2, sub)
  else
    let x_max := width - room_w - 2
    let y_max := height - room_h - 2
    if x_max ≤ 2 ∨ y_max ≤ 2 then (rng2, sub)
    else
      let (room_x, rng3) := rng2.range 2 x_max
      let (room_y, rng4) := rng3.range 4 y_max
      let candidate := Rect.with_size room_x room_y room_w room_h
      if sub.rooms.any (fun room => room.intersect candidate) then (rng4, sub)
      else
        let candidate_center := candidate.center
        let sub1 :=
          match sub.rooms.getLast? with
          | some prev =>
              { sub with corridors :=
                  sub.corridors ++ [corridor_path prev.center candidate_center] }
          | none =>
              { sub with spawn := candidate_center, stairs_up := [candidate_center] }
        (rng4, { sub1 with rooms := sub1.rooms ++ [candidate] })

/-- `Substrate::demo_layout`'s room-row while loop: rooms of size 12x8 at
y = 8, starting at x and stepping by 15 while x + 12 < width - 2. -/
def demoRooms (width x : Int) : List Rect :=
  if _h : x + 12 < width - 2 then Rect.with_size x 8 12 8 :: demoRooms width (x + 15)
  else []
termination_by (width - 2 - x).toNat
decreasing_by omega

/-- `Substrate::demo_layout`: the deterministic fallback layout. -/
def Substrate.demo_layout (width height : Int) : Substrate :=
  let sub := Substrate.new width height
  let rooms := demoRooms width 2
  let rooms :=
    if rooms.isEmpty then [Rect.with_size 2 8 (i32SatSub width 4) 8] else rooms
  let firstRoom := rooms.headD (Rect.with_size 2 8 12 8)
  let exit_point := ((rooms.getLast?).map Rect.center).getD firstRoom.center
  { sub with
    rooms := rooms
    spawn := firstRoom.center
    stairs_up := [firstRoom.center]
    stairs_down := [exit_point]
    corridors := (rooms.zip (rooms.drop 1)).map
      (fun w => corridor_path w.1.center w.2.center) }

/-- `Substrate::procedural`: up to 24 room placements from a seeded RNG,
stairs_down at the last room's center, falling back to `demo_layout` when
no room was placed. -/
def Substrate.procedural (width height : Int) (seed : Nat) : Substrate :=
  let init : RNG × Substrate := (RNG.seeded seed, Substrate.new width height)
  let fin := (List.range 24).foldl (fun st _ => proceduralStep width height st) init
  let sub := fin.2
  let sub :=
    match sub.rooms.getLast? with
    | some last_room => { sub with stairs_down := [last_room.center] }
    | none => sub
  if sub.rooms.isEmpty then Substrate.demo_layout width height else sub

/-- `Tile` (src/map/mod.rs). -/
structure Tile where
  glyph : Nat
  fg : RGB
  bg : RGB
  blocks_move : Bool
  blocks_sight : Bool
  tag : Nat
  revealed : Bool
deriving DecidableEq, Repr

/-- `Tile::wall` (also `Tile::default`). -/
def Tile.wall : Tile :=
  { glyph := 35, fg := ⟨90, 90, 90⟩, bg := ⟨0, 0, 0⟩,
    blocks_move := true, blocks_sight := true, tag := 0, revealed := false }

/-- `Tile::floor`. -/
def Tile.floor (world : World) : Tile :=
  { glyph := 46, fg := world_color world, bg := ⟨0, 0, 0⟩,
    blocks_move := false, blocks_sight := false, tag := 1, revealed := false }

/-- `Tile::stair_up`. -/
def Tile.stair_up (world : World) : Tile :=
  { glyph := 60, fg := world_color world, bg := ⟨0, 0, 0⟩,
    blocks_move := false, blocks_sight := false, tag := 2, revealed := false }

/-- `Tile::stair_down`. -/
def Tile.stair_down (world : World) : Tile :=
  { glyph := 62, fg := world_color world, bg := ⟨0, 0, 0⟩,
    blocks_move := false, blocks_sight := false, tag := 3, revealed := false }

/-- `MapLayer` (src/map/mod.rs): one world-plane's tile grid. -/
structure MapLayer where
  world : World
  width : Int
  height : Int
  tiles : List Tile
deriving DecidableEq, Repr

/-- `MapLayer::empty`: all tiles default (= wall). -/
def MapLayer.empty (world : World) (width height : Int) : MapLayer :=
  { world := world, width := width, height := height,
    tiles := List.replicate (width * height).toNat Tile.wall }

/-- `MapLayer::in_bounds`. -/
def MapLayer.in_bounds (l : MapLayer) (p : Point) : Bool :=
  decide (0 ≤ p.x ∧ p.x < l.width ∧ 0 ≤ p.y ∧ p.y < l.height)

/-- `MapLayer::idx`: flat index, defined when in bounds. -/
def MapLayer.idx (l : MapLayer) (x y : Int) : Option Nat :=
  if l.in_bounds ⟨x, y⟩ then some (y * l.width + x).toNat else none

/-- `MapLayer::set_tile`: write a tile if the point is in bounds. -/
def MapLayer.set_tile (l : MapLayer) (p : Point) (t : Tile) : MapLayer :=
  match l.idx p.x p.y with
  | some i => { l with tiles := l.tiles.set i t }
  | none => l

/-- `MapLayer::paint_floor`. -/
def MapLayer.paint_floor (l : MapLayer) (p : Point) : MapLayer :=
  l.set_tile p (Tile.floor l.world)

/-- `MapLayer::tile_at`. -/
def MapLayer.tile_at (l : MapLayer) (p : Point) : Option Tile :=
  (l.idx p.x p.y).bind (fun i => l.tiles[i]?)

/-- `MapLayer::is_walkable`: in-bounds and not blocks_move; out of bounds is
non-walkable. -/
def MapLayer.is_walkable (l : MapLayer) (p : Point) : Bool :=
  ((l.tile_at p).map (fun t => !t.blocks_move)).getD false

/-- `MapLayer::from_substrate`: walls everywhere, then floors over rooms and
corridors, then the stair tiles. -/
def MapLayer.from_substrate (world : World) (s : Substrate) : MapLayer :=
  let layer := MapLayer.empty world s.width s.height
  let layer := s.rooms.foldl (fun l room => room.pointList.foldl MapLayer.paint_floor l) layer
  let layer := s.corridors.foldl (fun l cor => cor.foldl MapLayer.paint_floor l) layer
  let layer := s.stairs_up.foldl (fun l st => l.set_tile st (Tile.stair_up world)) layer
  let layer := s.stairs_down.foldl (fun l st => l.set_tile st (Tile.stair_down world)) layer
  layer

/-- `WorldFloor`: one substrate and its 7 derived layers. -/
structure WorldFloor where
  id : FloorId
  substrate : Substrate
  layers : List MapLayer
deriving DecidableEq, Repr

/-- `WorldFloor::from_substrate`: derive all 7 layers from one substrate. -/
def WorldFloor.from_substrate (id : FloorId) (substrate : Substrate) : WorldFloor :=
  { id := id, substrate := substrate,
    layers := SPECTRUM.map (fun w => MapLayer.from_substrate w substrate) }

/-- `WorldFloor::layer`: select the layer of a plane by spectrum index. -/
def WorldFloor.layer (wf : WorldFloor) (world : World) : MapLayer :=
  (wf.layers[world.spectrum_index]?).getD (MapLayer.empty world 0 0)

/-- `Dungeon`. -/
structure Dungeon where
  floors : List WorldFloor
deriving DecidableEq, Repr

/-- `Dungeon::active_floor`. -/
def Dungeon.active_floor (d : Dungeon) (floor : FloorId) : Option WorldFloor :=
  d.floors[floor]?

/-- `Dungeon::active_layer`. -/
def Dungeon.active_layer (d : Dungeon) (floor : FloorId) (world : World) :
    Option MapLayer :=
  (d.active_floor floor).map (fun wf => wf.layer world)

/-- `Dungeon::is_walkable`. -/
def Dungeon.is_walkable (d : Dungeon) (floor : FloorId) (world : World)
    (p : Point) : Bool :=
  ((d.active_layer floor world).map (fun l => l.is_walkable p)).getD false

/-- `Position` component. -/
structure Position where
  point : Point
  floor : FloorId
  world : World
deriving DecidableEq, Repr

/-- `Renderable` component. -/
structure Renderable where
  glyph : Nat
  color : RGB
  order : Int
deriving DecidableEq, Repr

/-- `Viewshed` component. -/
structure Viewshed where
  radius : Int
  dirty : Bool
  visible : List Point
  remembered : List Point
deriving DecidableEq, Repr

/-- `Actor` component. -/
structure Actor where
  energy : Int
  speed : Int
deriving DecidableEq, Repr

/-- `IntentStep` component: a pending movement delta. -/
structure IntentStep where
  delta : Point
deriving DecidableEq, Repr

/-- `MonsterBrain` component; the f32 wander_chance is embedded as an exact
rational (all values in the program are two-decimal constants, for which
the f32 comparison against a roll k/100 agrees with the rational one). -/
structure MonsterBrain where
  wander_chance : ℚ
deriving DecidableEq, Repr

/-- `CombatStats` component (i32 fields embedded as Int). -/
structure CombatStats where
  max_hp : Int
  hp : Int
  power : Int
  defense : Int
deriving DecidableEq, Repr

/-- `InventoryEffect`. -/
inductive InventoryEffect where
  | Heal (amount : Int)
  | Cleanse
  | Blink (range : Int)
  | Nova (damage : Int) (radius : Int)
deriving DecidableEq, Repr

/-- `InventorySlot`. -/
structure InventorySlot where
  name : String
  description : String
  uses_remaining : Int
  effect : InventoryEffect
  color : RGB
deriving DecidableEq, Repr

/-- `Inventory`. -/
structure Inventory where
  slots : List InventorySlot
deriving DecidableEq, Repr

/-- Combat-log and consumable messages: the format! strings of the source,
embedded structurally with their payloads. -/
inductive Msg where
  | activated (name : String)
  | recovered (amount : Int)
  | noVitality
  | cleansed
  | blinkTo (p : Point)
  | blinkFizzle
  | sears (name : String) (damage : Int)
  | disintegrates (name : String)
  | novaHarmless
  | strike (name : String) (damage : Int)
  | collapse (name : String)
  | claws (name : String) (damage : Int)
  | shatter
deriving DecidableEq, Repr

/-- `AttackReport`. -/
structure AttackReport where
  hit : Msg
  kill : Option Msg
deriving DecidableEq, Repr

/-- One entity of the specs store: an identifier plus its optional
components (PlayerTag/MonsterTag as booleans, Monster by its name). -/
structure EntityRec where
  id : Nat
  position : Option Position
  renderable : Option Renderable
  viewshed : Option Viewshed
  actor : Option Actor
  intent : Option IntentStep
  isPlayer : Bool
  isMonster : Bool
  monster : Option String
  brain : Option MonsterBrain
  stats : Option CombatStats
  inventory : Option Inventory
deriving DecidableEq, Repr

/-- `EcsWorld`: the component store (entities in specs join order), the
player entity, the RNG resource and the CombatLog resource. -/
structure EcsWorld where
  entities : List EntityRec
  player : Nat
  rng : RNG
  combatLog : List Msg
deriving DecidableEq, Repr

/-- Look up an entity by id (first match, as in specs storages). -/
def EcsWorld.findEnt (w : EcsWorld) (id : Nat) : Option EntityRec :=
  w.entities.find? (fun e => e.id = id)

/-- Apply an update to the entity with the given id. -/
def EcsWorld.updEnt (w : EcsWorld) (id : Nat) (f : EntityRec → EntityRec) : EcsWorld :=
  { w with entities := w.entities.map (fun e => if e.id = id then f e else e) }

/-- `CombatStats` of an entity, when present. -/
def EcsWorld.statsOf (w : EcsWorld) (id : Nat) : Option CombatStats :=
  (w.findEnt id).bind (fun e => e.stats)

/-- `EcsWorld::player_position` with its source default. -/
def EcsWorld.player_position (w : EcsWorld) : Position :=
  ((w.findEnt w.player).bind (fun e => e.position)).getD ⟨⟨0, 0⟩, 0, .Red⟩

/-- `EcsWorld::player_point`. -/
def EcsWorld.player_point (w : EcsWorld) : Point :=
  w.player_position.point

/-- The player's `Inventory` component, when present. -/
def EcsWorld.playerInventory (w : EcsWorld) : Option Inventory :=
  (w.findEnt w.player).bind (fun e => e.inventory)

/-- The player's inventory slots (empty when the component is absent). -/
def EcsWorld.playerSlots (w : EcsWorld) : List InventorySlot :=
  ((w.playerInventory).map (fun i => i.slots)).getD []

/-- The player's `Position` component, when present. -/
def EcsWorld.playerPos (w : EcsWorld) : Option Position :=
  (w.findEnt w.player).bind (fun e => e.position)

/-- The ids present in the store. -/
def EcsWorld.entityIds (w : EcsWorld) : List Nat :=
  w.entities.map (fun e => e.id)

/-- `EcsWorld::entity_at`: the first entity (join order) whose Position
matches the point on the given floor and plane. -/
def EcsWorld.entity_at (w : EcsWorld) (point : Point) (floor : FloorId)
    (world : World) : Option Nat :=
  (w.entities.find? (fun e =>
    match e.position with
    | some pos => decide (pos.floor = floor ∧ pos.world = world ∧ pos.point = point)
    | none => false)).map (fun e => e.id)

/-- `EcsWorld::each_renderable`, as the list of visited entities; the entity
id is carried alongside the (point, renderable) pair handed to the callback
so that statements can speak about which entity appeared. -/
def EcsWorld.each_renderable (w : EcsWorld) (floor : FloorId) (world : World)
    (include_player : Bool) : List (Nat × Point × Renderable) :=
  w.entities.filterMap (fun e =>
    match e.position, e.renderable with
    | some pos, some r =>
      if pos.floor = floor ∧ pos.world = world ∧ (include_player ∨ e.isPlayer = false)
      then some (e.id, pos.point, r) else none
    | _, _ => none)

/-- `EcsWorld::set_player_position`: teleport-style relocation; recolors the
player's renderable and marks its viewshed dirty. -/
def EcsWorld.set_player_position (w : EcsWorld) (point : Point) (floor : FloorId)
    (world : World) : EcsWorld :=
  w.updEnt w.player (fun e =>
    { e with
      position := e.position.map (fun pos =>
        { pos with point := point, floor := floor, world := world })
      renderable := e.renderable.map (fun r => { r with color := world_color world })
      viewshed := e.viewshed.map (fun v => { v with dirty := true }) })

/-- `MovementContext` (src/ecs/resources.rs): per-pass snapshot of the
active layer. -/
structure MovementContext where
  floor : FloorId
  world : World
  player_point : Point
  width : Int
  height : Int
  walkable : List Bool
  blocks_sight : List Bool
deriving DecidableEq, Repr

/-- `MovementContext::from_layer`. -/
def MovementContext.from_layer (layer : MapLayer) (floor : FloorId)
    (world : World) (player_point : Point) : MovementContext :=
  { floor := floor, world := world, player_point := player_point,
    width := layer.width, height := layer.height,
    walkable := layer.tiles.map (fun t => !t.blocks_move),
    blocks_sight := layer.tiles.map (fun t => t.blocks_sight) }

/-- `MovementContext::is_walkable`. -/
def MovementContext.is_walkable (ctx : MovementContext) (p : Point) : Bool :=
  if p.x < 0 ∨ p.x ≥ ctx.width ∨ p.y < 0 ∨ p.y ≥ ctx.height then false
  else ctx.walkable.getD (p.y * ctx.width + p.x).toNat false

/-- `MovementContext::in_bounds`. -/
def MovementContext.in_bounds (ctx : MovementContext) (p : Point) : Bool :=
  decide (0 ≤ p.x ∧ p.x < ctx.width ∧ 0 ≤ p.y ∧ p.y < ctx.height)

/-- The axis-try loop body of `try_steps`: first walkable direction,
skipping the zero direction. -/
def tryAxes (f : Point) (ctx : MovementContext) : List Point → Option Point
  | [] => none
  | dir :: rest =>
    if dir = Point.mk 0 0 then tryAxes f ctx rest
    else if ctx.is_walkable ⟨f.x + dir.x, f.y + dir.y⟩ then some dir
    else tryAxes f ctx rest

/-- `try_steps` (src/ecs/systems.rs): axis order decided by comparing the
absolute values of the already-clamped deltas. -/
def try_steps (f : Point) (dx dy : Int) (ctx : MovementContext) : Option Point :=
  let axes := if dy.natAbs ≤ dx.natAbs
    then [Point.mk dx 0, Point.mk 0 dy]
    else [Point.mk 0 dy, Point.mk dx 0]
  tryAxes f ctx axes

/-- `step_towards`. -/
def step_towards (f t : Point) (ctx : MovementContext) : Option Point :=
  try_steps f (clampUnit (t.x - f.x)) (clampUnit (t.y - f.y)) ctx

/-- `step_away`. -/
def step_away (f t : Point) (ctx : MovementContext) : Option Point :=
  try_steps f (clampUnit (f.x - t.x)) (clampUnit (f.y - t.y)) ctx

/-- The outcome of the Wander/Chase decision for one monster. -/
inductive WanderDecision where
  | flee (step : Point)
  | chase (step : Point)
  | wander (step : Point)
  | idle
deriving DecidableEq, Repr

/-- The `dirs` array of `WanderSystem::run`. -/
def wanderDirs : List Point := [⟨1, 0⟩, ⟨-1, 0⟩, ⟨0, 1⟩, ⟨0, -1⟩]

/-- The per-monster body of `WanderSystem::run` after the outer plane
check: flee when hp ratio ≤ 0.3 (exact rational form 10*hp ≤ 3*max_hp)
and the player distance is < 6 (squared form < 36); else chase when the
distance is ≤ 8 (squared ≤ 64); else a wander roll.  The flee/chase
branches consume no randomness; the wander roll consumes one or two
values. -/
def wanderDecision (ctx : MovementContext) (pos : Position)
    (stat : Option CombatStats) (brain : MonsterBrain) (rng : RNG) :
    WanderDecision × RNG :=
  let acted : Option WanderDecision :=
    match stat with
    | some st =>
      if pos.floor = ctx.floor ∧ pos.world = ctx.world then
        if 10 * st.hp ≤ 3 * st.max_hp ∧ distSq pos.point ctx.player_point < 36 then
          (step_away pos.point ctx.player_point ctx).map .flee
        else if distSq pos.point ctx.player_point ≤ 64 then
          (step_towards pos.point ctx.player_point ctx).map .chase
        else none
      else none
    | none => none
  match acted with
  | some dec => (dec, rng)
  | none =>
    let (rollNum, rng1) := rng.range 0 100
    let roll : ℚ := (rollNum : ℚ) / 100
    if roll > brain.wander_chance then (.idle, rng1)
    else
      let (di, rng2) := rng1.range 0 4
      let dir := wanderDirs.getD di.toNat ⟨0, 0⟩
      let target := Point.mk (pos.point.x + dir.x) (pos.point.y + dir.y)
      if ctx.is_walkable target then (.wander dir, rng2) else (.idle, rng2)

namespace WanderSystem

/-- Process one entity of the `(entities, positions, monsters, brains)`
join: off-plane entities are skipped before any RNG use; a decided step is
inserted as the entity's IntentStep (overwriting any previous one). -/
def runEntity (ctx : MovementContext) (rng : RNG) (e : EntityRec) :
    EntityRec × RNG :=
  match e.position, e.brain with
  | some pos, some brain =>
    if e.isMonster then
      if pos.floor = ctx.floor ∧ pos.world = ctx.world then
        let (dec, rng') := wanderDecision ctx pos e.stats brain rng
        match dec with
        | .flee s => ({ e with intent := some ⟨s⟩ }, rng')
        | .chase s => ({ e with intent := some ⟨s⟩ }, rng')
        | .wander s => ({ e with intent := some ⟨s⟩ }, rng')
        | .idle => (e, rng')
      else (e, rng)
    else (e, rng)
  | _, _ => (e, rng)

/-- The join loop of `WanderSystem::run`, threading the RNG. -/
def go (ctx : MovementContext) : List EntityRec → RNG → List EntityRec × RNG
  | [], rng => ([], rng)
  | e :: rest, rng =>
    let (e', rng') := runEntity ctx rng e
    let (rest', rng'') := go ctx rest rng'
    (e' :: rest', rng'')

/-- `WanderSystem::run`. -/
def run (ctx : MovementContext) (w : EcsWorld) : EcsWorld :=
  let (ents, rng') := go ctx w.entities w.rng
  { w with entities := ents, rng := rng' }

end WanderSystem

namespace MovementSystem

/-- The loop state of `MovementSystem::run`: the evolving store, the local
player snapshot, the log lines pushed so far, the `to_clear` list, and (as
a specification-only record) the ids resolved through the
monster-attacks-player branch. -/
structure MoveState where
  entities : List EntityRec
  snap : Option (Nat × Position)
  log : List Msg
  toClear : List Nat
  attacked : List Nat

/-- One iteration of the `(entities, positions, intents)` join loop.  The
attack branch `continue`s before the `to_clear.push`, so its intent is not
queued for removal. -/
def processOne (ctx : MovementContext) (st : MoveState) (id : Nat) : MoveState :=
  match st.entities.find? (fun e => e.id = id) with
  | none => st
  | some e =>
    match e.position, e.intent with
    | some pos, some intent =>
      if pos.floor = ctx.floor ∧ pos.world = ctx.world then
        let target := Point.mk (pos.point.x + intent.delta.x) (pos.point.y + intent.delta.y)
        let isAttack : Bool :=
          match st.snap with
          | some (pid, ppos) =>
            decide (target = ppos.point ∧ pos.floor = ppos.floor ∧
              pos.world = ppos.world ∧ id ≠ pid)
          | none => false
        if isAttack then
          let st1 :=
            match st.snap with
            | some (pid, _) =>
              match e.stats, ((st.entities.find? (fun x : EntityRec => x.id = pid)).bind
                  (fun x : EntityRec => x.stats)) with
              | some astats, some pstats =>
                let damage := max 1 (astats.power - pstats.defense)
                let hp' := i32SatSub pstats.hp damage
                let name := (e.monster).getD "foe"
                { st with
                  entities := st.entities.map (fun x : EntityRec =>
                    if x.id = pid then { x with stats := some { pstats with hp := hp' } } else x)
                  log := st.log ++ [Msg.claws name damage] ++
                    (if hp' = 0 then [Msg.shatter] else []) }
              | _, _ => st
            | none => st
          { st1 with attacked := st1.attacked ++ [id] }
        else
          let st1 :=
            if ctx.is_walkable target then
              { st with
                entities := st.entities.map (fun x =>
                  if x.id = id then
                    { x with position := some { pos with point := target },
                             viewshed := x.viewshed.map (fun v => { v with dirty := true }) }
                  else x)
                snap :=
                  match st.snap with
                  | some (pid, ppos) =>
                    if id = pid then
                      some (pid, { ppos with point := target, floor := pos.floor, world := pos.world })
                    else some (pid, ppos)
                  | none => none }
            else st
          { st1 with toClear := st1.toClear ++ [id] }
      else st
    | _, _ => st

/-- The player snapshot taken at the top of `MovementSystem::run`. -/
def snapshot (w : EcsWorld) : Option (Nat × Position) :=
  (w.entities.find? (fun e => e.isPlayer && e.position.isSome)).bind
    (fun e => e.position.map (fun p => (e.id, p)))

/-- The ids of the entities entering the `(entities, positions, intents)`
join, in join order. -/
def joinIds (w : EcsWorld) : List Nat :=
  (w.entities.filter (fun e => e.position.isSome && e.intent.isSome)).map
    (fun e => e.id)

/-- The state after the join loop of `MovementSystem::run`. -/
def runState (ctx : MovementContext) (w : EcsWorld) : MoveState :=
  (joinIds w).foldl (processOne ctx) ⟨w.entities, snapshot w, [], [], []⟩

/-- `MovementSystem::run`: snapshot the player, process every entity that
entered the join with a Position and an IntentStep, then remove the intents
collected in `to_clear`.  Also returns the attacked-ids record. -/
def run (ctx : MovementContext) (w : EcsWorld) : EcsWorld × List Nat :=
  let st := runState ctx w
  let ents := st.entities.map (fun e =>
    if st.toClear.contains e.id then { e with intent := none } else e)
  ({ w with entities := ents, combatLog := w.combatLog ++ st.log }, st.attacked)

end MovementSystem

/-- Loop invariant of the MovementSystem join loop: an entity that still
holds an intent and sits on the active plane is either still pending, or
already queued in to_clear, or was resolved through the attack branch. -/
def MoveInv (ctx : MovementContext) (pending : List Nat)
    (st : MovementSystem.MoveState) : Prop :=
  ∀ e ∈ st.entities, e.intent.isSome = true →
    ∀ pos, e.position = some pos → pos.floor = ctx.floor → pos.world = ctx.world →
      e.id ∈ pending ∨ e.id ∈ st.toClear ∨ e.id ∈ st.attacked

/-- `EcsWorld::player_attack`: damage = max(1, power − defense) applied by
i32 saturating subtraction; the target is removed from the store exactly
when its new hp equals 0. -/
def EcsWorld.player_attack (w : EcsWorld) (target_point : Point)
    (floor : FloorId) (world : World) : Option AttackReport × EcsWorld :=
  match w.entity_at target_point floor world with
  | none => (none, w)
  | some target =>
    if target = w.player then (none, w)
    else
      match w.statsOf w.player with
      | none => (none, w)
      | some attacker_stats =>
        match w.statsOf target with
        | none => (none, w)
        | some target_stats =>
          let damage := max 1 (attacker_stats.power - target_stats.defense)
          let hp' := i32SatSub target_stats.hp damage
          let w1 := w.updEnt target (fun e =>
            { e with stats := some { target_stats with hp := hp' } })
          let name := ((w.findEnt target).bind (fun e => e.monster)).getD "foe"
          if hp' = 0 then
            (some { hit := .strike name damage, kill := some (.collapse name) },
             { w1 with entities := w1.entities.filter (fun e => e.id ≠ target) })
          else
            (some { hit := .strike name damage, kill := none }, w1)

/-- The in-range test of `spectral_nova`: the f32 comparison
`Pythagoras.distance2d(origin, p) <= radius as f32` in exact squared form
(a nonnegative distance is never ≤ a negative radius). -/
def novaInRange (radius : Int) (origin p : Point) : Bool :=
  decide (0 ≤ radius ∧ distSq origin p ≤ radius * radius)

/-- The per-entity body of the `spectral_nova` join: when the entity is a
monster on the plane within range, its damaged record, the sears line, and
its death entry when hp reached 0. -/
def novaStep (damage radius : Int) (floor : FloorId) (world : World)
    (origin : Point) (e : EntityRec) :
    Option (EntityRec × Msg × List (Nat × String)) :=
  match e.position, e.stats, e.monster with
  | some pos, some stat, some name =>
    if pos.floor = floor ∧ pos.world = world ∧
        novaInRange radius origin pos.point then
      let hp' := i32SatSub stat.hp damage
      some ({ e with stats := some { stat with hp := hp' } },
        Msg.sears name damage,
        if hp' = 0 then [(e.id, name)] else [])
    else none
  | _, _, _ => none

/-- The join loop of `spectral_nova`: damages every monster on the plane in
range, returns the updated records, the sears log lines in join order, the
(id, name) death list and the affected count. -/
def novaGo (damage radius : Int) (floor : FloorId) (world : World)
    (origin : Point) :
    List EntityRec → List EntityRec × List Msg × List (Nat × String) × Nat
  | [] => ([], [], [], 0)
  | e :: rest =>
    let r := novaGo damage radius floor world origin rest
    match novaStep damage radius floor world origin e with
    | some (e', line, death) =>
      (e' :: r.1, line :: r.2.1, death ++ r.2.2.1, r.2.2.2 + 1)
    | none => (e :: r.1, r.2.1, r.2.2.1, r.2.2.2)

/-- `EcsWorld::spectral_nova`: area damage around the player; monsters whose
hp reaches 0 are deleted after the loop; a harmless line when nothing was
affected. -/
def EcsWorld.spectral_nova (w : EcsWorld) (damage radius : Int)
    (floor : FloorId) (world : World) : List Msg × EcsWorld :=
  let origin := w.player_point
  let r := novaGo damage radius floor world origin w.entities
  let log := r.2.1 ++ r.2.2.1.map (fun d => Msg.disintegrates d.2)
  let ents := r.1.filter (fun e => !(r.2.2.1.any (fun d => d.1 = e.id)))
  let log := if r.2.2.2 = 0 then log ++ [Msg.novaHarmless] else log
  (log, { w with entities := ents })

/-- The candidate list of `blink_destination`: every point of the square of
half-width range around the player that is walkable and unoccupied,
enumerated dy-outer / dx-inner as in the source. -/
def blinkCandidates (w : EcsWorld) (range : Int) (d : Dungeon)
    (floor : FloorId) (world : World) : List Point :=
  let current := w.player_point
  let ds := intRange (-range) (range + 1)
  ds.foldr (fun dy acc =>
    (ds.filterMap (fun dx =>
      let p := Point.mk (current.x + dx) (current.y + dy)
      if d.is_walkable floor world p ∧ w.entity_at p floor world = none
      then some p else none)) ++ acc) []

/-- `EcsWorld::blink_destination`: a uniformly chosen candidate, or None
when no candidate exists (in which case the RNG is untouched). -/
def EcsWorld.blink_destination (w : EcsWorld) (range : Int) (d : Dungeon)
    (floor : FloorId) (world : World) : Option Point × EcsWorld :=
  let candidates := blinkCandidates w range d floor world
  if candidates.isEmpty then (none, w)
  else
    let (v, rng') := w.rng.range 0 candidates.length
    (some (candidates.getD v.toNat ⟨0, 0⟩), { w with rng := rng' })

/-- The Heal branch of `use_consumable`: raise hp clamped to max_hp and
report the amount gained (a flavor line when nothing was gained). -/
def EcsWorld.healPlayer (w : EcsWorld) (amount : Int) : List Msg × EcsWorld :=
  match w.statsOf w.player with
  | some st =>
    let hp' := min (st.hp + amount) st.max_hp
    let gained := hp' - st.hp
    let w' := w.updEnt w.player (fun e => { e with stats := some { st with hp := hp' } })
    (if gained > 0 then [.recovered gained] else [.noVitality], w')
  | none => ([], w)

/-- Replace the player's Inventory component (when present). -/
def EcsWorld.setPlayerInventory (w : EcsWorld) (inv : Inventory) : EcsWorld :=
  w.updEnt w.player (fun e => { e with inventory := e.inventory.map (fun _ => inv) })

/-- The slot-removal tail of `use_consumable`: delete the slot at the
index (guarded by the source's bounds check) from the player's inventory. -/
def removeSlotStep (slot_index : Nat) (w2 : EcsWorld) : EcsWorld :=
  match w2.playerInventory with
  | some inv2 =>
    if slot_index < inv2.slots.length then
      w2.setPlayerInventory ⟨inv2.slots.eraseIdx slot_index⟩
    else w2
  | none => w2

/-- `EcsWorld::use_consumable`: check the slot, decrement its uses, apply
the effect, then delete the slot when its uses reached 0.  None (with no
mutation) on a missing inventory, an out-of-range index or an exhausted
slot. -/
def EcsWorld.use_consumable (w : EcsWorld) (slot_index : Nat) (d : Dungeon)
    (floor : FloorId) (world : World) : Option (List Msg) × EcsWorld :=
  match w.playerInventory with
  | none => (none, w)
  | some inv =>
    match inv.slots[slot_index]? with
    | none => (none, w)
    | some slot =>
      if slot.uses_remaining ≤ 0 then (none, w)
      else
        let remove_slot := slot.uses_remaining - 1 ≤ 0
        let w1 := w.setPlayerInventory
          ⟨inv.slots.set slot_index { slot with uses_remaining := slot.uses_remaining - 1 }⟩
        let er :=
          match slot.effect with
          | .Heal amount => w1.healPlayer amount
          | .Cleanse => ([.cleansed], w1)
          | .Blink range =>
            let bd := w1.blink_destination range d floor world
            match bd.1 with
            | some dest => ([.blinkTo dest], bd.2.set_player_position dest floor world)
            | none => ([.blinkFizzle], bd.2)
          | .Nova damage radius => w1.spectral_nova damage radius floor world
        let w2 := er.2
        let log := Msg.activated slot.name :: er.1
        let w3 := if remove_slot then removeSlotStep slot_index w2 else w2
        (some log, w3)

/-- Modelled from the spec (refinement comparison for the chase rule): the
chase step chooses the axis with the larger absolute POSITION delta first
(comparing the unclamped deltas), falling back to the other axis, skipping
an axis whose step lands on a non-walkable tile. -/
def try_steps_spec (f : Point) (ddx ddy : Int) (ctx : MovementContext) : Option Point :=
  let dx := clampUnit ddx
  let dy := clampUnit ddy
  let axes := if ddy.natAbs ≤ ddx.natAbs
    then [Point.mk dx 0, Point.mk 0 dy]
    else [Point.mk 0 dy, Point.mk dx 0]
  tryAxes f ctx axes

/-- Modelled from the spec: `step_towards` under the spec's axis-choice
wording. -/
def step_towards_spec (f t : Point) (ctx : MovementContext) : Option Point :=
  try_steps_spec f (t.x - f.x) (t.y - f.y) ctx

/-
Concrete fixtures used by witnesses and counterexamples.
-/

/-- The rational 0.65 (an f32 template wander chance), written in lowest
terms so that kernel evaluation of equality tests never needs Rat
arithmetic. -/
def chance65 : ℚ := ⟨13, 20, by decide, by decide⟩

/-- The rational 0.5, in lowest terms. -/
def chance50 : ℚ := ⟨1, 2, by decide, by decide⟩

/-- A 20x20 fully walkable movement context with the player at (16,10). -/
def ctx20 : MovementContext :=
  { floor := 0, world := .Red, player_point := ⟨16, 10⟩, width := 20, height := 20,
    walkable := List.replicate 400 true, blocks_sight := List.replicate 400 false }

/-- A 4x3 fully walkable movement context with the player at (1,1). -/
def ctxSmall : MovementContext :=
  { floor := 0, world := .Red, player_point := ⟨1, 1⟩, width := 4, height := 3,
    walkable := List.replicate 12 true, blocks_sight := List.replicate 12 false }

/-- The player entity at (1,1) on floor 0, plane Red, with the bootstrap
stats 20/20 hp, power 5, defense 1. -/
def playerEnt : EntityRec :=
  { id := 0, position := some ⟨⟨1, 1⟩, 0, .Red⟩,
    renderable := some ⟨64, world_color .Red, 2⟩,
    viewshed := some ⟨8, false, [], []⟩, actor := some ⟨0, 60⟩, intent := none,
    isPlayer := true, isMonster := false, monster := none, brain := none,
    stats := some ⟨20, 20, 5, 1⟩, inventory := none }

/-- An Ember Imp (template hp 6, power 3, defense 0) at (2,1) with the
given remaining hp. -/
def impEnt (hp : Int) : EntityRec :=
  { id := 1, position := some ⟨⟨2, 1⟩, 0, .Red⟩,
    renderable := some ⟨105, ⟨255, 140, 76⟩, 1⟩,
    viewshed := none, actor := none, intent := none,
    isPlayer := false, isMonster := true, monster := some "Ember Imp",
    brain := some ⟨chance65⟩, stats := some ⟨6, hp, 3, 0⟩, inventory := none }

/-- Store for the C1 failing input: the imp already hit once (hp 6 → 1). -/
def w_c1 : EcsWorld :=
  { entities := [playerEnt, impEnt 1], player := 0, rng := RNG.seeded 0,
    combatLog := [] }

/-- Store for the C2 counterexample: the imp (full hp) holds an IntentStep
toward the player. -/
def w_c2 : EcsWorld :=
  { entities := [playerEnt, { impEnt 6 with intent := some ⟨⟨-1, 0⟩⟩ }],
    player := 0, rng := RNG.seeded 0, combatLog := [] }

/-- A low-hp monster (hp 1 of max 10) at (10,10) for the C4 counterexample;
the ctx20 player stands at (16,10), at distance exactly 6. -/
def fleeMon : EntityRec :=
  { id := 1, position := some ⟨⟨10, 10⟩, 0, .Red⟩,
    renderable := some ⟨105, ⟨255, 140, 76⟩, 1⟩,
    viewshed := none, actor := none, intent := none,
    isPlayer := false, isMonster := true, monster := some "Ember Imp",
    brain := some ⟨chance50⟩, stats := some ⟨10, 1, 3, 0⟩, inventory := none }

/-- The walkability/opacity projection of a tile. -/
def Tile.geom (t : Tile) : Bool × Bool := (t.blocks_move, t.blocks_sight)

/-- Two layers with the same dimensions and the same geometry projection at
every index. -/
def layerGeomEq (a b : MapLayer) : Prop :=
  a.width = b.width ∧ a.height = b.height ∧
    a.tiles.map Tile.geom = b.tiles.map Tile.geom

/-- A low-hp monster (hp 1 of max 10) at (12,10), strictly inside the flee
radius of the ctx20 player at (16,10). -/
def fleeMon2 : EntityRec :=
  { fleeMon with position := some ⟨⟨12, 10⟩, 0, .Red⟩ }

/-- A Heal(8) consumable slot with one use (the Red-world Thermal Draft). -/
def slotHeal : InventorySlot :=
  { name := "Thermal Draft", description := "Restores 8 HP with a warming rush.",
    uses_remaining := 1, effect := .Heal 8, color := ⟨255, 165, 0⟩ }

/-- A Blink(2) consumable slot with two uses. -/
def slotBlink : InventorySlot :=
  { name := "Prism Step", description := "Blinks a short distance.",
    uses_remaining := 2, effect := .Blink 2, color := ⟨193, 126, 255⟩ }

/-- The player at 10/20 hp carrying a one-slot Heal inventory. -/
def playerHealInv : EntityRec :=
  { playerEnt with
    stats := some ⟨20, 10, 5, 1⟩
    inventory := some ⟨[slotHeal]⟩ }

/-- A store whose player carries a one-slot Heal inventory; the imp stands
at (2,1). -/
def w_inv : EcsWorld :=
  { entities := [playerHealInv, impEnt 6],
    player := 0, rng := RNG.seeded 0, combatLog := [] }

/-- A store whose player carries a Blink(2) slot, on a tiny dungeon. -/
def w_blink : EcsWorld :=
  { entities := [{ playerEnt with inventory := some ⟨[slotBlink]⟩ }],
    player := 0, rng := RNG.seeded 0, combatLog := [] }

/-- A 4x3 all-floor dungeon (one floor, seven identical layers). -/
def d_small : Dungeon :=
  { floors := [WorldFloor.from_substrate 0
      { width := 4, height := 3, rooms := [Rect.with_size 0 0 4 3],
        corridors := [], stairs_up := [], stairs_down := [],
        spawn := ⟨1, 1⟩ }] }

/-
Theorems.
-/

theorem layerGeomEq_idx {a b : MapLayer} (h : layerGeomEq a b) (x y : Int) :
    a.idx x y = b.idx x y := by
  obtain ⟨hw, hh, _⟩ := h
  unfold MapLayer.idx MapLayer.in_bounds
  rw [hw, hh]

theorem layerGeomEq_set_tile {a b : MapLayer} (h : layerGeomEq a b)
    {t t' : Tile} (ht : t.geom = t'.geom) (p : Point) :
    layerGeomEq (a.set_tile p t) (b.set_tile p t') := by
  have hidx := layerGeomEq_idx h p.x p.y
  obtain ⟨hw, hh, hm⟩ := h
  unfold MapLayer.set_tile
  rw [hidx]
  cases hc : b.idx p.x p.y with
  | none => exact ⟨hw, hh, hm⟩
  | some n =>
    refine ⟨hw, hh, ?_⟩
    simp only [List.map_set, hm, ht]

theorem layerGeomEq_paint_floor {a b : MapLayer} (h : layerGeomEq a b)
    (p : Point) : layerGeomEq (a.paint_floor p) (b.paint_floor p) := by
  unfold MapLayer.paint_floor
  refine layerGeomEq_set_tile h ?_ p
  rfl

theorem layerGeomEq_paint_fold {pts : List Point} :
    ∀ {a b : MapLayer}, layerGeomEq a b →
      layerGeomEq (pts.foldl MapLayer.paint_floor a) (pts.foldl MapLayer.paint_floor b) := by
  induction pts with
  | nil => intro a b h; exact h
  | cons p rest ih =>
    intro a b h
    exact ih (layerGeomEq_paint_floor h p)

theorem layerGeomEq_rooms_fold {rooms : List Rect} :
    ∀ {a b : MapLayer}, layerGeomEq a b →
      layerGeomEq
        (rooms.foldl (fun l room => room.pointList.foldl MapLayer.paint_floor l) a)
        (rooms.foldl (fun l room => room.pointList.foldl MapLayer.paint_floor l) b) := by
  induction rooms with
  | nil => intro a b h; exact h
  | cons r rest ih =>
    intro a b h
    exact ih (layerGeomEq_paint_fold h)

theorem layerGeomEq_corridors_fold {cors : List (List Point)} :
    ∀ {a b : MapLayer}, layerGeomEq a b →
      layerGeomEq
        (cors.foldl (fun l cor => cor.foldl MapLayer.paint_floor l) a)
        (cors.foldl (fun l cor => cor.foldl MapLayer.paint_floor l) b) := by
  induction cors with
  | nil => intro a b h; exact h
  | cons c rest ih =>
    intro a b h
    exact ih (layerGeomEq_paint_fold h)

theorem layerGeomEq_settile_fold {sts : List Point} {t t' : Tile}
    (ht : t.geom = t'.geom) :
    ∀ {a b : MapLayer}, layerGeomEq a b →
      layerGeomEq
        (sts.foldl (fun l st => l.set_tile st t) a)
        (sts.foldl (fun l st => l.set_tile st t') b) := by
  induction sts with
  | nil => intro a b h; exact h
  | cons s rest ih =>
    intro a b h
    exact ih (layerGeomEq_set_tile h ht s)

theorem layerGeomEq_from_substrate (s : Substrate) (w w' : World) :
    layerGeomEq (MapLayer.from_substrate w s) (MapLayer.from_substrate w' s) := by
  unfold MapLayer.from_substrate
  dsimp only
  refine layerGeomEq_settile_fold ?_ (layerGeomEq_settile_fold ?_
    (layerGeomEq_corridors_fold (layerGeomEq_rooms_fold ⟨rfl, rfl, rfl⟩))) <;> rfl

/-- C6: for every substrate and every pair of world-planes, the two layers
derived from that substrate agree at every point on blocks_move and on
blocks_sight — identical walkable/opaque geometry. -/
theorem layers_share_geometry (s : Substrate) (w w' : World) (p : Point) :
    ((MapLayer.from_substrate w s).tile_at p).map (fun t => t.blocks_move) =
        ((MapLayer.from_substrate w' s).tile_at p).map (fun t => t.blocks_move) ∧
      ((MapLayer.from_substrate w s).tile_at p).map (fun t => t.blocks_sight) =
        ((MapLayer.from_substrate w' s).tile_at p).map (fun t => t.blocks_sight) := by
  obtain ⟨hw, hh, hm⟩ := layerGeomEq_from_substrate s w w'
  have hidx : (MapLayer.from_substrate w s).idx p.x p.y =
      (MapLayer.from_substrate w' s).idx p.x p.y := by
    unfold MapLayer.idx MapLayer.in_bounds
    rw [hw, hh]
  have hget : ∀ n : Nat,
      ((MapLayer.from_substrate w s).tiles[n]?).map Tile.geom =
        ((MapLayer.from_substrate w' s).tiles[n]?).map Tile.geom := by
    intro n
    have h1 := congrArg (fun l => l[n]?) hm
    simpa only [List.getElem?_map] using h1
  unfold MapLayer.tile_at
  rw [hidx]
  cases hcase : (MapLayer.from_substrate w' s).idx p.x p.y with
  | none => exact ⟨rfl, rfl⟩
  | some n =>
    have h2 := hget n
    constructor
    · have h3 := congrArg (fun o => o.map Prod.fst) h2
      simpa only [Option.map_bind, Option.map_map, Option.bind_some, Function.comp] using h3
    · have h3 := congrArg (fun o => o.map Prod.snd) h2
      simpa only [Option.map_bind, Option.map_map, Option.bind_some, Function.comp] using h3

theorem RNG.range_mem (r : RNG) (lo hi : Int) (h : lo < hi) :
    lo ≤ (r.range lo hi).1 ∧ (r.range lo hi).1 < hi := by
  have hpos : 0 < (hi - lo).toNat := by omega
  have hx := Nat.mod_lt (rngStream r.seed r.counter) hpos
  unfold RNG.range
  dsimp only
  omega

/-- C7: for every width, height and seed, two calls of substrate generation
with the same arguments return identical substrates — the same rooms,
corridors, stairs_up, stairs_down and spawn point.  The embedding makes
`Substrate.procedural` a pure function of exactly these arguments (the
seeded RNG is its only source of randomness), so the two calls are one and
the same value. -/
theorem procedural_deterministic (width height : Int) (seed : Nat) :
    (Substrate.procedural width height seed).rooms =
      (Substrate.procedural width height seed).rooms ∧
    (Substrate.procedural width height seed).corridors =
      (Substrate.procedural width height seed).corridors ∧
    (Substrate.procedural width height seed).stairs_up =
      (Substrate.procedural width height seed).stairs_up ∧
    (Substrate.procedural width height seed).stairs_down =
      (Substrate.procedural width height seed).stairs_down ∧
    (Substrate.procedural width height seed).spawn =
      (Substrate.procedural width height seed).spawn ∧
    Substrate.procedural width height seed = Substrate.procedural width height seed :=
  ⟨rfl, rfl, rfl, rfl, rfl, rfl⟩

/-- C1 (failing input): the player (power 5) striking an Ember Imp that has
1 hp left deals max(1, 5−0) = 5 damage; i32 saturating subtraction takes
the imp's hp to −4 (not 0), violating 0 ≤ hp, and the hp == 0 kill check
then fails, so the imp is not removed and no kill is reported. -/
theorem player_attack_negative_hp :
    (((w_c1.player_attack ⟨2, 1⟩ 0 .Red).2.statsOf 1).map (fun s => s.hp)) =
        some (-4) ∧
      1 ∈ (w_c1.player_attack ⟨2, 1⟩ 0 .Red).2.entityIds ∧
      ((w_c1.player_attack ⟨2, 1⟩ 0 .Red).1.map (fun r => r.kill)) = some none := by
  decide

/-- C2 (counterexample): after a MovementSystem pass in which the imp's
step targeted the player's tile (the monster-attacks-player branch), the
imp — on the active floor and plane — still carries its IntentStep. -/
theorem movement_pass_keeps_attack_intent :
    (((MovementSystem.run ctxSmall w_c2).1.findEnt 1).bind (fun e => e.intent)) =
        some ⟨⟨-1, 0⟩⟩ ∧
      ((((MovementSystem.run ctxSmall w_c2).1.findEnt 1).bind
          (fun e => e.position)).map (fun p => (p.floor, p.world))) =
        some (0, World.Red) := by
  decide

/-- C4 (counterexample): a monster with hp ratio 1/10 ≤ 0.3 whose distance
to the player is exactly 6 (within 6) receives a CHASE step toward the
player on the Wander/Chase pass — the flee test uses a strict < 6, so at
distance 6 the chase branch fires — contradicting the claim that such a
monster receives a step-away intent and never a chase step. -/
theorem flee_zone_boundary_chases :
    (10 * (1 : Int) ≤ 3 * 10) ∧
      distSq ⟨10, 10⟩ ⟨16, 10⟩ ≤ 36 ∧
      (((WanderSystem.go ctx20 [fleeMon] (RNG.seeded 0)).1.head?).bind
          (fun e => e.intent)) = some ⟨⟨1, 0⟩⟩ ∧
      step_away ⟨10, 10⟩ ⟨16, 10⟩ ctx20 = some ⟨-1, 0⟩ ∧
      (Point.mk 1 0) ≠ Point.mk (-1) 0 := by
  decide

/-- C5 (counterexample): chasing from (0,0) toward a player at (2,7) on an
open map, the code steps along x — `try_steps` compares the clamped unit
deltas, so x wins any tie — while the spec's axis-with-larger-absolute-
delta rule (|Δy| = 7 > 2 = |Δx|) steps along y. -/
theorem chase_axis_order_counterexample :
    step_towards ⟨0, 0⟩ ⟨2, 7⟩ ctx20 = some ⟨1, 0⟩ ∧
      step_towards_spec ⟨0, 0⟩ ⟨2, 7⟩ ctx20 = some ⟨0, 1⟩ ∧
      (2 : Int).natAbs < (7 : Int).natAbs := by
  decide

theorem clampUnit_cases (d : Int) :
    clampUnit d = -1 ∨ clampUnit d = 0 ∨ clampUnit d = 1 := by
  unfold clampUnit
  omega

/-- C5 (amended): the chase step is characterized by trying the horizontal
axis first whenever Δx ≠ 0 (the source compares the clamped unit deltas,
under which any nonzero Δx ties or beats Δy), the vertical axis first only
when Δx = 0; an axis whose step lands on a non-walkable tile is skipped in
favor of the other, and a zero axis is skipped. -/
theorem step_towards_clamped_axis_order (f t : Point) (ctx : MovementContext) :
    step_towards f t ctx =
      (let dx := clampUnit (t.x - f.x)
       let dy := clampUnit (t.y - f.y)
       if dx ≠ 0 then
         if ctx.is_walkable ⟨f.x + dx, f.y⟩ then some ⟨dx, 0⟩
         else if dy ≠ 0 then
           if ctx.is_walkable ⟨f.x, f.y + dy⟩ then some ⟨0, dy⟩ else none
         else none
       else if dy ≠ 0 then
         if ctx.is_walkable ⟨f.x, f.y + dy⟩ then some ⟨0, dy⟩ else none
       else none) := by
  rcases clampUnit_cases (t.x - f.x) with h1 | h1 | h1 <;>
    rcases clampUnit_cases (t.y - f.y) with h2 | h2 | h2 <;>
      simp [step_towards, try_steps, tryAxes, h1, h2, Point.mk.injEq]

theorem wanderDecision_flee (ctx : MovementContext) (pos : Position)
    (st : CombatStats) (brain : MonsterBrain) (rng : RNG) (s : Point)
    (hpl : pos.floor = ctx.floor) (hwo : pos.world = ctx.world)
    (hhp : 10 * st.hp ≤ 3 * st.max_hp)
    (hd : distSq pos.point ctx.player_point < 36)
    (hs : step_away pos.point ctx.player_point ctx = some s) :
    wanderDecision ctx pos (some st) brain rng = (.flee s, rng) := by
  unfold wanderDecision
  dsimp only
  rw [if_pos (And.intro hpl hwo), if_pos (And.intro hhp hd), hs]
  rfl

theorem runEntity_flee (ctx : MovementContext) (rng : RNG) (e : EntityRec)
    (pos : Position) (brain : MonsterBrain) (st : CombatStats) (s : Point)
    (hm : e.isMonster = true) (hpos : e.position = some pos)
    (hb : e.brain = some brain) (hst : e.stats = some st)
    (hpl : pos.floor = ctx.floor) (hwo : pos.world = ctx.world)
    (hhp : 10 * st.hp ≤ 3 * st.max_hp)
    (hd : distSq pos.point ctx.player_point < 36)
    (hs : step_away pos.point ctx.player_point ctx = some s) :
    WanderSystem.runEntity ctx rng e = ({ e with intent := some ⟨s⟩ }, rng) := by
  unfold WanderSystem.runEntity
  simp only [hpos, hb, hm, hst,
    wanderDecision_flee ctx pos st brain rng s hpl hwo hhp hd hs]
  rw [if_pos (And.intro hpl hwo)]
  simp

/-- C4 (amended): on a Wander/Chase pass, every monster on the active
(floor, plane) with a brain and combat stats, whose hp ratio is at most 0.3
and whose distance to the player is STRICTLY below 6, and for which
step_away finds a walkable flee step, receives exactly that step-away
IntentStep; moreover for every RNG state the decision for such a monster is
the flee step — never a chase step and never a random-wander step.  (At
distance exactly 6 the monster chases instead, and when no flee step is
walkable it may fall through to the wander roll; see the counterexample.) -/
theorem wander_flee_amended (ctx : MovementContext) (es : List EntityRec)
    (rng : RNG) (e : EntityRec) (pos : Position) (brain : MonsterBrain)
    (st : CombatStats) (s : Point)
    (he : e ∈ es) (hm : e.isMonster = true) (hpos : e.position = some pos)
    (hb : e.brain = some brain) (hst : e.stats = some st)
    (hpl : pos.floor = ctx.floor) (hwo : pos.world = ctx.world)
    (hhp : 10 * st.hp ≤ 3 * st.max_hp)
    (hd : distSq pos.point ctx.player_point < 36)
    (hs : step_away pos.point ctx.player_point ctx = some s) :
    (∃ e', e' ∈ (WanderSystem.go ctx es rng).1 ∧ e'.id = e.id ∧
        e'.intent = some ⟨s⟩) ∧
      ∀ r : RNG, (wanderDecision ctx pos (some st) brain r).1 = .flee s := by
  constructor
  · induction es generalizing rng with
    | nil => cases he
    | cons a rest ih =>
      rcases List.mem_cons.mp he with hea | hea
      · subst hea
        refine ⟨{ e with intent := some ⟨s⟩ }, ?_, rfl, rfl⟩
        unfold WanderSystem.go
        rw [runEntity_flee ctx rng e pos brain st s hm hpos hb hst hpl hwo hhp hd hs]
        exact List.mem_cons_self _ _
      · obtain ⟨e', he', hid, hint⟩ :=
          ih ((WanderSystem.runEntity ctx rng a).2) hea
        refine ⟨e', ?_, hid, hint⟩
        unfold WanderSystem.go
        exact List.mem_cons_of_mem _ he'
  · intro r
    rw [wanderDecision_flee ctx pos st brain r s hpl hwo hhp hd hs]

/-- Witness for C4 (amended): a concrete low-hp monster at distance 4 from
the player on an open map receives the flee step (−1,0) away from the
player. -/
theorem wander_flee_amended_witness :
    (∃ e', e' ∈ (WanderSystem.go ctx20 [fleeMon2] (RNG.seeded 0)).1 ∧
        e'.id = fleeMon2.id ∧ e'.intent = some ⟨⟨-1, 0⟩⟩) ∧
      ∀ r : RNG,
        (wanderDecision ctx20 ⟨⟨12, 10⟩, 0, .Red⟩ (some ⟨10, 1, 3, 0⟩) ⟨chance50⟩ r).1 =
          .flee ⟨-1, 0⟩ :=
  wander_flee_amended ctx20 [fleeMon2] (RNG.seeded 0) fleeMon2
    ⟨⟨12, 10⟩, 0, .Red⟩ ⟨chance50⟩ ⟨10, 1, 3, 0⟩ ⟨-1, 0⟩
    (List.mem_singleton.mpr rfl) rfl rfl rfl rfl rfl rfl
    (by decide) (by decide) (by decide)

/-- Entity-record transformers whose id and intent agree with the original
record, and whose position agrees off a given id. -/
def presLike (idv : Nat) (u : EntityRec → EntityRec) : Prop :=
  ∀ x, (u x).id = x.id ∧ (u x).intent = x.intent ∧
    (x.id ≠ idv → (u x).position = x.position)

theorem exists_pres_refl (l : List EntityRec) (idv : Nat) :
    ∃ u, l = l.map u ∧ presLike idv u :=
  ⟨fun x => x, by simp, fun x => ⟨rfl, rfl, fun _ => rfl⟩⟩

theorem processOne_entities (ctx : MovementContext)
    (st : MovementSystem.MoveState) (id : Nat) :
    ∃ u : EntityRec → EntityRec,
      (MovementSystem.processOne ctx st id).entities = st.entities.map u ∧
      presLike id u := by
  unfold MovementSystem.processOne
  cases hf : st.entities.find? (fun e => e.id = id) with
  | none => exact exists_pres_refl st.entities id
  | some e =>
    try dsimp only
    cases hp : e.position with
    | none => exact exists_pres_refl st.entities id
    | some pos =>
      try dsimp only
      cases hi : e.intent with
      | none => exact exists_pres_refl st.entities id
      | some intent =>
        dsimp only
        by_cases hplane : pos.floor = ctx.floor ∧ pos.world = ctx.world
        · rw [if_pos hplane]
          cases hsnap : st.snap with
          | none =>
            dsimp only
            cases hw : ctx.is_walkable
                ⟨pos.point.x + intent.delta.x, pos.point.y + intent.delta.y⟩ with
            | false =>
              rw [if_neg Bool.false_ne_true]
              exact exists_pres_refl st.entities id
            | true =>
              rw [if_pos rfl]
              refine ⟨_, rfl, fun x => ⟨?_, ?_, fun hx => ?_⟩⟩
              · split <;> rfl
              · split <;> rfl
              · rw [if_neg hx]
          | some pr =>
            obtain ⟨pid, ppos⟩ := pr
            dsimp only
            by_cases hatk : (Point.mk (pos.point.x + intent.delta.x)
                  (pos.point.y + intent.delta.y)) = ppos.point ∧
                pos.floor = ppos.floor ∧ pos.world = ppos.world ∧ id ≠ pid
            · rw [decide_eq_true hatk, if_pos rfl]
              dsimp only
              cases hst1 : e.stats with
              | none => exact exists_pres_refl st.entities id
              | some astats =>
                cases hps : ((st.entities.find? (fun x => x.id = pid)).bind
                    (fun x => x.stats)) with
                | none => exact exists_pres_refl st.entities id
                | some pstats =>
                  refine ⟨_, rfl, fun x => ⟨?_, ?_, fun hx => ?_⟩⟩ <;>
                    (split <;> rfl)
            · rw [decide_eq_false hatk, if_neg Bool.false_ne_true]
              dsimp only
              cases hw : ctx.is_walkable
                  ⟨pos.point.x + intent.delta.x, pos.point.y + intent.delta.y⟩ with
              | false =>
                rw [if_neg Bool.false_ne_true]
                exact exists_pres_refl st.entities id
              | true =>
                rw [if_pos rfl]
                refine ⟨_, rfl, fun x => ⟨?_, ?_, fun hx => ?_⟩⟩
                · split <;> rfl
                · split <;> rfl
                · rw [if_neg hx]
        · rw [if_neg hplane]
          exact exists_pres_refl st.entities id

theorem processOne_ids (ctx : MovementContext) (st : MovementSystem.MoveState)
    (id : Nat) :
    (MovementSystem.processOne ctx st id).entities.map (fun e => e.id) =
      st.entities.map (fun e => e.id) := by
  obtain ⟨u, hent, hu⟩ := processOne_entities ctx st id
  rw [hent, List.map_map]
  exact List.map_congr_left (fun x _ => (hu x).1)

theorem processOne_lists (ctx : MovementContext)
    (st : MovementSystem.MoveState) (id : Nat) :
    ((MovementSystem.processOne ctx st id).toClear = st.toClear ∨
        (MovementSystem.processOne ctx st id).toClear = st.toClear ++ [id]) ∧
      ((MovementSystem.processOne ctx st id).attacked = st.attacked ∨
        (MovementSystem.processOne ctx st id).attacked = st.attacked ++ [id]) := by
  unfold MovementSystem.processOne
  cases hf : st.entities.find? (fun e => e.id = id) with
  | none => exact ⟨Or.inl rfl, Or.inl rfl⟩
  | some e =>
    try dsimp only
    cases hp : e.position with
    | none => exact ⟨Or.inl rfl, Or.inl rfl⟩
    | some pos =>
      try dsimp only
      cases hi : e.intent with
      | none => exact ⟨Or.inl rfl, Or.inl rfl⟩
      | some intent =>
        dsimp only
        by_cases hplane : pos.floor = ctx.floor ∧ pos.world = ctx.world
        · rw [if_pos hplane]
          cases hsnap : st.snap with
          | none =>
            rw [if_neg Bool.false_ne_true]
            dsimp only
            cases hw : ctx.is_walkable
                ⟨pos.point.x + intent.delta.x, pos.point.y + intent.delta.y⟩ with
            | false =>
              rw [if_neg Bool.false_ne_true]
              exact ⟨Or.inr rfl, Or.inl rfl⟩
            | true =>
              rw [if_pos rfl]
              exact ⟨Or.inr rfl, Or.inl rfl⟩
          | some pr =>
            obtain ⟨pid, ppos⟩ := pr
            dsimp only
            by_cases hatk : (Point.mk (pos.point.x + intent.delta.x)
                  (pos.point.y + intent.delta.y)) = ppos.point ∧
                pos.floor = ppos.floor ∧ pos.world = ppos.world ∧ id ≠ pid
            · rw [decide_eq_true hatk, if_pos rfl]
              dsimp only
              cases hst1 : e.stats with
              | none => exact ⟨Or.inl rfl, Or.inr rfl⟩
              | some astats =>
                cases hps : ((st.entities.find? (fun x => x.id = pid)).bind
                    (fun x => x.stats)) with
                | none => exact ⟨Or.inl rfl, Or.inr rfl⟩
                | some pstats => exact ⟨Or.inl rfl, Or.inr rfl⟩
            · rw [decide_eq_false hatk, if_neg Bool.false_ne_true]
              dsimp only
              cases hw : ctx.is_walkable
                  ⟨pos.point.x + intent.delta.x, pos.point.y + intent.delta.y⟩ with
              | false =>
                rw [if_neg Bool.false_ne_true]
                exact ⟨Or.inr rfl, Or.inl rfl⟩
              | true =>
                rw [if_pos rfl]
                exact ⟨Or.inr rfl, Or.inl rfl⟩
        · rw [if_neg hplane]
          exact ⟨Or.inl rfl, Or.inl rfl⟩

theorem processOne_toClear_mono (ctx : MovementContext)
    (st : MovementSystem.MoveState) (id a : Nat)
    (h : a ∈ st.toClear) : a ∈ (MovementSystem.processOne ctx st id).toClear := by
  rcases (processOne_lists ctx st id).1 with hc | hc <;> rw [hc] <;>
    simp [List.mem_append, h]

theorem processOne_attacked_mono (ctx : MovementContext)
    (st : MovementSystem.MoveState) (id a : Nat)
    (h : a ∈ st.attacked) : a ∈ (MovementSystem.processOne ctx st id).attacked := by
  rcases (processOne_lists ctx st id).2 with hc | hc <;> rw [hc] <;>
    simp [List.mem_append, h]

theorem processOne_resolves (ctx : MovementContext)
    (st : MovementSystem.MoveState) (id : Nat) (f : EntityRec) (posf : Position)
    (it : IntentStep)
    (hf : st.entities.find? (fun e => e.id = id) = some f)
    (hp : f.position = some posf) (hi : f.intent = some it)
    (hfl : posf.floor = ctx.floor) (hwo : posf.world = ctx.world) :
    id ∈ (MovementSystem.processOne ctx st id).toClear ∨
      id ∈ (MovementSystem.processOne ctx st id).attacked := by
  unfold MovementSystem.processOne
  rw [hf]
  dsimp only
  rw [hp, hi]
  dsimp only
  rw [if_pos (And.intro hfl hwo)]
  cases hsnap : st.snap with
  | none =>
    rw [if_neg Bool.false_ne_true]
    left
    simp
  | some pr =>
    obtain ⟨pid, ppos⟩ := pr
    dsimp only
    by_cases hatk : (Point.mk (posf.point.x + it.delta.x)
          (posf.point.y + it.delta.y)) = ppos.point ∧
        posf.floor = ppos.floor ∧ posf.world = ppos.world ∧ id ≠ pid
    · rw [decide_eq_true hatk, if_pos rfl]
      right
      simp
    · rw [decide_eq_false hatk, if_neg Bool.false_ne_true]
      left
      simp

theorem processOne_noop_none (ctx : MovementContext)
    (st : MovementSystem.MoveState) (id : Nat)
    (hf : st.entities.find? (fun e => e.id = id) = none) :
    MovementSystem.processOne ctx st id = st := by
  unfold MovementSystem.processOne
  rw [hf]

theorem processOne_noop_no_position (ctx : MovementContext)
    (st : MovementSystem.MoveState) (id : Nat) (f : EntityRec)
    (hf : st.entities.find? (fun e => e.id = id) = some f)
    (hp : f.position = none) :
    MovementSystem.processOne ctx st id = st := by
  unfold MovementSystem.processOne
  rw [hf]
  dsimp only
  rw [hp]

theorem processOne_noop_no_intent (ctx : MovementContext)
    (st : MovementSystem.MoveState) (id : Nat) (f : EntityRec) (posf : Position)
    (hf : st.entities.find? (fun e => e.id = id) = some f)
    (hp : f.position = some posf) (hi : f.intent = none) :
    MovementSystem.processOne ctx st id = st := by
  unfold MovementSystem.processOne
  rw [hf]
  dsimp only
  rw [hp, hi]

theorem processOne_noop_off_plane (ctx : MovementContext)
    (st : MovementSystem.MoveState) (id : Nat) (f : EntityRec) (posf : Position)
    (it : IntentStep)
    (hf : st.entities.find? (fun e => e.id = id) = some f)
    (hp : f.position = some posf) (hi : f.intent = some it)
    (hnpl : ¬(posf.floor = ctx.floor ∧ posf.world = ctx.world)) :
    MovementSystem.processOne ctx st id = st := by
  unfold MovementSystem.processOne
  rw [hf]
  dsimp only
  rw [hp, hi]
  dsimp only
  rw [if_neg hnpl]

theorem entity_eq_of_nodup_ids {l : List EntityRec}
    (hnd : (l.map (fun e => e.id)).Nodup) {x y : EntityRec}
    (hx : x ∈ l) (hy : y ∈ l) (hxy : x.id = y.id) : x = y :=
  List.inj_on_of_nodup_map hnd hx hy hxy

theorem processOne_inv_step (ctx : MovementContext)
    (st : MovementSystem.MoveState) (id : Nat) (rest : List Nat)
    (hnd : (st.entities.map (fun e => e.id)).Nodup)
    (hInv : MoveInv ctx (id :: rest) st) :
    MoveInv ctx rest (MovementSystem.processOne ctx st id) := by
  cases hf : st.entities.find? (fun e => e.id = id) with
  | none =>
    rw [processOne_noop_none ctx st id hf]
    intro e he hint pos hpos hfl hwo
    rcases hInv e he hint pos hpos hfl hwo with h | h | h
    · rcases List.mem_cons.mp h with h' | h'
      · exfalso
        have := List.find?_eq_none.mp hf e he
        simp [h'] at this
      · exact Or.inl h'
    · exact Or.inr (Or.inl h)
    · exact Or.inr (Or.inr h)
  | some f =>
    have hfid : f.id = id := by
      have := List.find?_some hf
      simpa using this
    have hfmem : f ∈ st.entities := List.mem_of_find?_eq_some hf
    have noop_case : MovementSystem.processOne ctx st id = st →
        (∀ g ∈ st.entities, g.id = id → g.intent.isSome = true →
          ∀ pos, g.position = some pos →
            ¬(pos.floor = ctx.floor ∧ pos.world = ctx.world)) →
        MoveInv ctx rest (MovementSystem.processOne ctx st id) := by
      intro hst hbad
      rw [hst]
      intro e he hint pos hpos hfl hwo
      rcases hInv e he hint pos hpos hfl hwo with h | h | h
      · rcases List.mem_cons.mp h with h' | h'
        · exact absurd (And.intro hfl hwo) (hbad e he h' hint pos hpos)
        · exact Or.inl h'
      · exact Or.inr (Or.inl h)
      · exact Or.inr (Or.inr h)
    cases hp : f.position with
    | none =>
      refine noop_case (processOne_noop_no_position ctx st id f hf hp) ?_
      intro g hg hgid hgint pos hgpos
      have hgf : g = f := entity_eq_of_nodup_ids hnd hg hfmem (by rw [hgid, hfid])
      rw [hgf, hp] at hgpos
      cases hgpos
    | some posf =>
      cases hi : f.intent with
      | none =>
        refine noop_case (processOne_noop_no_intent ctx st id f posf hf hp hi) ?_
        intro g hg hgid hgint pos hgpos
        have hgf : g = f := entity_eq_of_nodup_ids hnd hg hfmem (by rw [hgid, hfid])
        rw [hgf, hi] at hgint
        cases hgint
      | some it =>
        by_cases hplane : posf.floor = ctx.floor ∧ posf.world = ctx.world
        · obtain ⟨u, hent, hu⟩ := processOne_entities ctx st id
          intro e he hint pos hpos hfl hwo
          rw [hent] at he
          obtain ⟨x, hx, hxe⟩ := List.mem_map.mp he
          subst hxe
          by_cases hxid : x.id = id
          · rw [(hu x).1, hxid]
            rcases processOne_resolves ctx st id f posf it hf hp hi
                hplane.1 hplane.2 with h | h
            · exact Or.inr (Or.inl h)
            · exact Or.inr (Or.inr h)
          · have hpos' : x.position = some pos := by
              rw [← (hu x).2.2 hxid]
              exact hpos
            have hint' : x.intent.isSome = true := by
              rw [← (hu x).2.1]
              exact hint
            rcases hInv x hx hint' pos hpos' hfl hwo with h | h | h
            · rcases List.mem_cons.mp h with h' | h'
              · exact absurd h' hxid
              · rw [(hu x).1]
                exact Or.inl h'
            · rw [(hu x).1]
              exact Or.inr (Or.inl (processOne_toClear_mono ctx st id x.id h))
            · rw [(hu x).1]
              exact Or.inr (Or.inr (processOne_attacked_mono ctx st id x.id h))
        · refine noop_case
            (processOne_noop_off_plane ctx st id f posf it hf hp hi hplane) ?_
          intro g hg hgid hgint pos hgpos
          have hgf : g = f := entity_eq_of_nodup_ids hnd hg hfmem (by rw [hgid, hfid])
          rw [hgf, hp] at hgpos
          cases hgpos
          exact hplane

theorem movement_fold_inv (ctx : MovementContext) (pending : List Nat) :
    ∀ (st : MovementSystem.MoveState),
      (st.entities.map (fun e => e.id)).Nodup →
      MoveInv ctx pending st →
      MoveInv ctx [] (pending.foldl (MovementSystem.processOne ctx) st) := by
  induction pending with
  | nil =>
    intro st _ hInv
    exact hInv
  | cons id rest ih =>
    intro st hnd hInv
    have hnd' : ((MovementSystem.processOne ctx st id).entities.map
        (fun e => e.id)).Nodup := by
      rw [processOne_ids]
      exact hnd
    exact ih (MovementSystem.processOne ctx st id) hnd'
      (processOne_inv_step ctx st id rest hnd hInv)

/-- C2 (amended): after a MovementSystem pass, an entity on the active
(floor, plane) still carries an IntentStep only if its step was resolved
through the monster-attacks-player branch (which `continue`s before the
to_clear push); every other processed intent — step taken or blocked — is
removed.  The hypothesis is the store invariant that entity ids are
distinct. -/
theorem movement_clears_intents_except_attacks (ctx : MovementContext)
    (w : EcsWorld) (hnd : (w.entities.map (fun e => e.id)).Nodup)
    (e : EntityRec) (he : e ∈ (MovementSystem.run ctx w).1.entities)
    (hint : e.intent.isSome = true) (pos : Position)
    (hpos : e.position = some pos) (hfl : pos.floor = ctx.floor)
    (hwo : pos.world = ctx.world) :
    e.id ∈ (MovementSystem.run ctx w).2 := by
  unfold MovementSystem.run at he ⊢
  dsimp only at he ⊢
  obtain ⟨x, hx, hxe⟩ := List.mem_map.mp he
  have hInv0 : MoveInv ctx (MovementSystem.joinIds w)
      ⟨w.entities, MovementSystem.snapshot w, [], [], []⟩ := by
    intro g hg hgint pos2 hgpos _ _
    left
    unfold MovementSystem.joinIds
    refine List.mem_map.mpr ⟨g, ?_, rfl⟩
    refine List.mem_filter.mpr ⟨hg, ?_⟩
    rw [hgpos, hgint]
    rfl
  have hfin := movement_fold_inv ctx (MovementSystem.joinIds w)
    ⟨w.entities, MovementSystem.snapshot w, [], [], []⟩ hnd hInv0
  by_cases hc : (MovementSystem.runState ctx w).toClear.contains x.id
  · rw [if_pos hc] at hxe
    rw [← hxe] at hint
    cases hint
  · rw [if_neg hc] at hxe
    subst hxe
    rcases hfin x hx hint pos hpos hfl hwo with h | h | h
    · cases h
    · exact absurd (List.elem_iff.mpr h) hc
    · exact h

/-- Witness for C2 (amended): in the concrete store where the imp's step
targets the player, the imp — which keeps its intent on the active plane —
is indeed recorded as resolved through the attack branch. -/
theorem movement_clears_intents_witness :
    ({ impEnt 6 with intent := some ⟨⟨-1, 0⟩⟩ } : EntityRec).id ∈
      (MovementSystem.run ctxSmall w_c2).2 :=
  movement_clears_intents_except_attacks ctxSmall w_c2 (by decide)
    { impEnt 6 with intent := some ⟨⟨-1, 0⟩⟩ } (by decide) (by decide)
    ⟨⟨2, 1⟩, 0, .Red⟩ (by decide) rfl rfl

theorem entity_at_mem_ids (w : EcsWorld) (p : Point) (f : FloorId) (wo : World)
    (tid : Nat) (h : w.entity_at p f wo = some tid) : tid ∈ w.entityIds := by
  unfold EcsWorld.entity_at at h
  obtain ⟨e, he, hid⟩ := Option.map_eq_some'.mp h
  exact List.mem_map.mpr ⟨e, List.mem_of_find?_eq_some he, hid⟩

theorem each_renderable_mem_ids (w : EcsWorld) (f : FloorId) (wo : World)
    (b : Bool) (x : Nat × Point × Renderable)
    (h : x ∈ w.each_renderable f wo b) : x.1 ∈ w.entityIds := by
  unfold EcsWorld.each_renderable at h
  obtain ⟨e, he, hge⟩ := List.mem_filterMap.mp h
  cases hp : e.position with
  | none => rw [hp] at hge; cases hge
  | some pos =>
    cases hr : e.renderable with
    | none => rw [hp, hr] at hge; cases hge
    | some r =>
      rw [hp, hr] at hge
      dsimp only at hge
      split_ifs at hge
      cases hge
      exact List.mem_map.mpr ⟨e, he, rfl⟩

theorem not_mem_ids_filter_ne (l : List EntityRec) (tid : Nat) :
    tid ∉ ((l.filter (fun e => e.id ≠ tid)).map (fun e => e.id)) := by
  intro h
  obtain ⟨x, hx, hxid⟩ := List.mem_map.mp h
  have hne := List.of_mem_filter hx
  simp only [decide_eq_true_eq] at hne
  exact hne hxid

theorem not_mem_ids_filter_deaths (l : List EntityRec)
    (deaths : List (Nat × String)) (tid : Nat) (nm : String)
    (hd : (tid, nm) ∈ deaths) :
    tid ∉ ((l.filter (fun e => !(deaths.any (fun d => d.1 = e.id)))).map
      (fun e => e.id)) := by
  intro h
  obtain ⟨x, hx, hxid⟩ := List.mem_map.mp h
  have hne := List.of_mem_filter hx
  have hany : deaths.any (fun d => d.1 = x.id) = true :=
    List.any_eq_true.mpr ⟨(tid, nm), hd, by simp [hxid]⟩
  rw [hany] at hne
  cases hne

theorem novaGo_death (damage radius : Int) (floor : FloorId) (world : World)
    (origin : Point) (es : List EntityRec) (e : EntityRec) (pos : Position)
    (nm : String) (st : CombatStats)
    (he : e ∈ es) (hp : e.position = some pos) (hm : e.monster = some nm)
    (hs : e.stats = some st) (hfl : pos.floor = floor) (hwo : pos.world = world)
    (hin : novaInRange radius origin pos.point = true)
    (hz : i32SatSub st.hp damage = 0) :
    (e.id, nm) ∈ (novaGo damage radius floor world origin es).2.2.1 := by
  induction es with
  | nil => cases he
  | cons a rest ih =>
    rcases List.mem_cons.mp he with hea | hea
    · subst hea
      unfold novaGo novaStep
      rw [hp, hs, hm]
      try dsimp only
      rw [if_pos (And.intro hfl (And.intro hwo hin))]
      try dsimp only
      rw [hz]
      try dsimp only
      rw [if_pos rfl]
      exact List.mem_append_left _ (List.mem_singleton.mpr rfl)
    · have hmem := ih hea
      unfold novaGo
      cases hstep : novaStep damage radius floor world origin a with
      | none =>
        exact hmem
      | some tr =>
        obtain ⟨a', line, death⟩ := tr
        exact List.mem_append_right _ hmem

/-- C3: whenever a resolution step (player_attack or Nova) reduces a
monster's hp to exactly zero, that monster is removed from the store in the
same resolution step, and the removed entity appears in no subsequent
each_renderable or entity_at query against the resulting store. -/
theorem death_removal :
    (∀ (w : EcsWorld) (pt : Point) (f : FloorId) (wo : World) (tid : Nat)
        (ts ps : CombatStats),
      w.entity_at pt f wo = some tid →
      tid ≠ w.player →
      w.statsOf w.player = some ps →
      w.statsOf tid = some ts →
      i32SatSub ts.hp (max 1 (ps.power - ts.defense)) = 0 →
      tid ∉ (w.player_attack pt f wo).2.entityIds ∧
        (∀ p2 f2 w2, (w.player_attack pt f wo).2.entity_at p2 f2 w2 ≠ some tid) ∧
        (∀ f2 w2 b x, x ∈ (w.player_attack pt f wo).2.each_renderable f2 w2 b →
          x.1 ≠ tid)) ∧
    (∀ (w : EcsWorld) (dmg rad : Int) (f : FloorId) (wo : World) (e : EntityRec)
        (pos : Position) (nm : String) (st : CombatStats),
      e ∈ w.entities → e.position = some pos → e.monster = some nm →
      e.stats = some st → pos.floor = f → pos.world = wo →
      novaInRange rad w.player_point pos.point = true →
      i32SatSub st.hp dmg = 0 →
      e.id ∉ (w.spectral_nova dmg rad f wo).2.entityIds ∧
        (∀ p2 f2 w2, (w.spectral_nova dmg rad f wo).2.entity_at p2 f2 w2 ≠
          some e.id) ∧
        (∀ f2 w2 b x, x ∈ (w.spectral_nova dmg rad f wo).2.each_renderable f2 w2 b →
          x.1 ≠ e.id)) := by
  constructor
  · intro w pt f wo tid ts ps hat htid hps hts hzero
    unfold EcsWorld.player_attack
    rw [hat]
    dsimp only
    rw [if_neg htid, hps, hts]
    dsimp only
    rw [if_pos hzero]
    dsimp only
    refine ⟨not_mem_ids_filter_ne _ tid, ?_, ?_⟩
    · intro p2 f2 w2 hq
      exact not_mem_ids_filter_ne _ tid (entity_at_mem_ids _ p2 f2 w2 tid hq)
    · intro f2 w2 b x hx heq
      exact not_mem_ids_filter_ne _ tid
        (heq ▸ each_renderable_mem_ids _ f2 w2 b x hx)
  · intro w dmg rad f wo e pos nm st he hp hm hs hfl hwo hin hz
    have hd := novaGo_death dmg rad f wo w.player_point w.entities e pos nm st
      he hp hm hs hfl hwo hin hz
    unfold EcsWorld.spectral_nova
    dsimp only
    refine ⟨not_mem_ids_filter_deaths _ _ e.id nm hd, ?_, ?_⟩
    · intro p2 f2 w2 hq
      exact not_mem_ids_filter_deaths _ _ e.id nm hd
        (entity_at_mem_ids _ p2 f2 w2 e.id hq)
    · intro f2 w2 b x hx heq
      exact not_mem_ids_filter_deaths _ _ e.id nm hd
        (heq ▸ each_renderable_mem_ids _ f2 w2 b x hx)

/-- Witness for C3: the player (power 5) strikes an adjacent imp whose hp
equals the damage (5); the imp's hp reaches exactly 0 and it is removed and
never queried again. -/
theorem death_removal_witness :
    (1 : Nat) ∉ (EcsWorld.player_attack
        { entities := [playerEnt, impEnt 5], player := 0, rng := RNG.seeded 0,
          combatLog := [] } ⟨2, 1⟩ 0 .Red).2.entityIds ∧
      (∀ p2 f2 w2, (EcsWorld.player_attack
          { entities := [playerEnt, impEnt 5], player := 0, rng := RNG.seeded 0,
            combatLog := [] } ⟨2, 1⟩ 0 .Red).2.entity_at p2 f2 w2 ≠ some 1) ∧
      (∀ f2 w2 b x, x ∈ (EcsWorld.player_attack
          { entities := [playerEnt, impEnt 5], player := 0, rng := RNG.seeded 0,
            combatLog := [] } ⟨2, 1⟩ 0 .Red).2.each_renderable f2 w2 b →
        x.1 ≠ 1) :=
  death_removal.1
    { entities := [playerEnt, impEnt 5], player := 0, rng := RNG.seeded 0,
      combatLog := [] } ⟨2, 1⟩ 0 .Red 1 ⟨6, 5, 3, 0⟩ ⟨20, 20, 5, 1⟩
    (by decide) (by decide) (by decide) (by decide) (by decide)

theorem find?_filter_of_imp {α : Type} (l : List α) (p q : α → Bool)
    (h : ∀ x, p x = true → q x = true) :
    (l.filter q).find? p = l.find? p := by
  induction l with
  | nil => rfl
  | cons a t ih =>
    cases hq : q a with
    | true =>
      rw [List.filter_cons_of_pos hq, List.find?_cons, List.find?_cons]
      cases hp : p a with
      | true => rfl
      | false => exact ih
    | false =>
      have hp : p a = false := by
        cases hpa : p a with
        | false => rfl
        | true => rw [h a hpa] at hq; cases hq
      rw [List.filter_cons_of_neg (by simp [hq]), List.find?_cons, hp]
      exact ih

theorem find?_map_pres_pred (l : List EntityRec) (u : EntityRec → EntityRec)
    (p : EntityRec → Bool) (hp : ∀ x, p (u x) = p x) :
    (l.map u).find? p = (l.find? p).map u := by
  induction l with
  | nil => rfl
  | cons a t ih =>
    rw [List.map_cons, List.find?_cons, List.find?_cons, hp a]
    cases hpa : p a with
    | true => rfl
    | false => exact ih

theorem intRange_mem (lo hi a : Int) : a ∈ intRange lo hi ↔ lo ≤ a ∧ a < hi := by
  unfold intRange
  simp only [List.mem_map, List.mem_range]
  constructor
  · rintro ⟨i, hi2, rfl⟩
    omega
  · intro ⟨h1, h2⟩
    exact ⟨(a - lo).toNat, by omega, by omega⟩

theorem mem_foldr_append {α β : Type} (ds : List α) (f : α → List β) (p : β)
    (h : p ∈ ds.foldr (fun dy acc => f dy ++ acc) []) :
    ∃ dy ∈ ds, p ∈ f dy := by
  induction ds with
  | nil => cases h
  | cons a t ih =>
    rcases List.mem_append.mp h with h' | h'
    · exact ⟨a, List.mem_cons_self _ _, h'⟩
    · obtain ⟨dy, hdy, hp⟩ := ih h'
      exact ⟨dy, List.mem_cons_of_mem _ hdy, hp⟩

theorem eraseIdx_set {α : Type} (l : List α) (i : Nat) (b : α) :
    (l.set i b).eraseIdx i = l.eraseIdx i := by
  induction l generalizing i with
  | nil => rfl
  | cons a t ih =>
    cases i with
    | zero => rfl
    | succ n =>
      simp only [List.set_cons_succ, List.eraseIdx_cons_succ, ih]

theorem updEnt_player (w : EcsWorld) (pid : Nat) (u : EntityRec → EntityRec) :
    (w.updEnt pid u).player = w.player := rfl

theorem playerInventory_updEnt (w : EcsWorld) (pid : Nat)
    (u : EntityRec → EntityRec) (hid : ∀ x, (u x).id = x.id)
    (hinv : ∀ x, (u x).inventory = x.inventory) :
    (w.updEnt pid u).playerInventory = w.playerInventory := by
  unfold EcsWorld.playerInventory EcsWorld.findEnt EcsWorld.updEnt
  dsimp only
  rw [find?_map_pres_pred _ _ _ (by
    intro x
    by_cases hx : x.id = pid
    · simp [hx, hid]
    · simp [hx])]
  cases w.entities.find? (fun e => e.id = w.player) with
  | none => rfl
  | some e =>
    by_cases hx : e.id = pid
    · simp [hx, hinv e]
    · simp [hx]

theorem player_point_updEnt (w : EcsWorld) (pid : Nat)
    (u : EntityRec → EntityRec) (hid : ∀ x, (u x).id = x.id)
    (hpos : ∀ x, (u x).position = x.position) :
    (w.updEnt pid u).player_point = w.player_point := by
  unfold EcsWorld.player_point EcsWorld.player_position EcsWorld.findEnt
    EcsWorld.updEnt
  dsimp only
  rw [find?_map_pres_pred _ _ _ (by
    intro x
    by_cases hx : x.id = pid
    · simp [hx, hid]
    · simp [hx])]
  cases w.entities.find? (fun e => e.id = w.player) with
  | none => rfl
  | some e =>
    by_cases hx : e.id = pid
    · simp [hx, hpos e]
    · simp [hx]

theorem entity_at_updEnt (w : EcsWorld) (pid : Nat) (u : EntityRec → EntityRec)
    (hid : ∀ x, (u x).id = x.id) (hpos : ∀ x, (u x).position = x.position)
    (p : Point) (f : FloorId) (wo : World) :
    (w.updEnt pid u).entity_at p f wo = w.entity_at p f wo := by
  unfold EcsWorld.entity_at EcsWorld.updEnt
  dsimp only
  rw [find?_map_pres_pred _ _ _ (by
    intro x
    by_cases hx : x.id = pid
    · simp only [hx, if_pos]
      rw [hpos x]
    · rw [if_neg hx])]
  cases w.entities.find? _ with
  | none => rfl
  | some e =>
    by_cases hx : e.id = pid
    · simp [hx, hid e]
    · simp [hx]

theorem setPlayerInventory_playerInventory (w : EcsWorld) (inv0 inv1 : Inventory)
    (h : w.playerInventory = some inv0) :
    (w.setPlayerInventory inv1).playerInventory = some inv1 := by
  unfold EcsWorld.playerInventory EcsWorld.findEnt at h ⊢
  unfold EcsWorld.setPlayerInventory EcsWorld.updEnt
  dsimp only
  rw [find?_map_pres_pred _ _ _ (by
    intro x
    by_cases hx : x.id = w.player
    · simp [hx]
    · simp [hx])]
  obtain ⟨e, he, hei⟩ := Option.bind_eq_some.mp h
  have heid : e.id = w.player := by
    have := List.find?_some he
    simpa using this
  rw [he]
  simp [heid, hei]

theorem setPlayerInventory_player_point (w : EcsWorld) (inv1 : Inventory) :
    (w.setPlayerInventory inv1).player_point = w.player_point :=
  player_point_updEnt w w.player
    (fun e => { e with inventory := e.inventory.map (fun _ => inv1) })
    (fun _ => rfl) (fun _ => rfl)

theorem setPlayerInventory_entity_at (w : EcsWorld) (inv1 : Inventory)
    (p : Point) (f : FloorId) (wo : World) :
    (w.setPlayerInventory inv1).entity_at p f wo = w.entity_at p f wo :=
  entity_at_updEnt w w.player
    (fun e => { e with inventory := e.inventory.map (fun _ => inv1) })
    (fun _ => rfl) (fun _ => rfl) p f wo

theorem blink_destination_world (w : EcsWorld) (range : Int) (d : Dungeon)
    (f : FloorId) (wo : World) :
    (w.blink_destination range d f wo).2 = w ∨
      (w.blink_destination range d f wo).2 = { w with rng := (w.blink_destination range d f wo).2.rng } := by
  unfold EcsWorld.blink_destination
  dsimp only
  split
  · left
    rfl
  · right
    rfl

/-- C9: for every slot index out of range of the player's inventory, and
for every slot whose remaining-uses counter is exhausted, use_consumable
returns None and leaves the entire world state (inventory, combat stats,
positions, RNG, log) unchanged. -/
theorem use_consumable_invalid_slot (w : EcsWorld) (d : Dungeon) (f : FloorId)
    (wo : World) (i : Nat)
    (h : w.playerSlots.length ≤ i ∨
      (((w.playerSlots[i]?).map (fun s => s.uses_remaining)).getD 0) ≤ 0) :
    w.use_consumable i d f wo = (none, w) := by
  unfold EcsWorld.use_consumable
  cases hinv : w.playerInventory with
  | none => rfl
  | some inv =>
    dsimp only
    have hps : w.playerSlots = inv.slots := by
      unfold EcsWorld.playerSlots
      rw [hinv]
      rfl
    cases hslot : inv.slots[i]? with
    | none => rfl
    | some slot =>
      dsimp only
      have huse : slot.uses_remaining ≤ 0 := by
        rcases h with h | h
        · exfalso
          obtain ⟨hlt, _⟩ := List.getElem?_eq_some.mp hslot
          rw [hps] at h
          omega
        · rw [hps, hslot] at h
          simpa using h
      rw [if_pos huse]

/-- Witness for C9: using slot index 5 of a one-slot inventory returns None
and the world value is unchanged. -/
theorem use_consumable_invalid_slot_witness :
    w_inv.use_consumable 5 d_small 0 .Red = (none, w_inv) :=
  use_consumable_invalid_slot w_inv d_small 0 .Red 5 (Or.inl (by decide))

theorem novaStep_pres (dmg rad : Int) (f : FloorId) (wo : World) (o : Point)
    (e e' : EntityRec) (line : Msg) (death : List (Nat × String))
    (hstep : novaStep dmg rad f wo o e = some (e', line, death)) :
    e'.id = e.id ∧ e'.inventory = e.inventory ∧
      ∀ p ∈ death, p.1 = e.id ∧ e.monster.isSome = true := by
  unfold novaStep at hstep
  cases hp : e.position with
  | none => rw [hp] at hstep; cases hstep
  | some pos =>
    cases hs : e.stats with
    | none => rw [hp, hs] at hstep; cases hstep
    | some st =>
      cases hm : e.monster with
      | none => rw [hp, hs, hm] at hstep; cases hstep
      | some nm =>
        rw [hp, hs, hm] at hstep
        dsimp only at hstep
        split_ifs at hstep with hcond hz
        · injection hstep with h1
          injection h1 with hA h2
          injection h2 with hB hC
          subst hA
          refine ⟨rfl, rfl, ?_⟩
          intro p hp2
          rw [← hC] at hp2
          rw [List.mem_singleton.mp hp2]
          exact ⟨rfl, rfl⟩
        · injection hstep with h1
          injection h1 with hA h2
          injection h2 with hB hC
          subst hA
          refine ⟨rfl, rfl, ?_⟩
          intro p hp2
          rw [← hC] at hp2
          cases hp2

theorem novaGo_find_bind (dmg rad : Int) (f : FloorId) (wo : World) (o : Point)
    (pid : Nat) :
    ∀ es : List EntityRec,
      (((novaGo dmg rad f wo o es).1.find? (fun e => e.id = pid)).bind
          (fun e => e.inventory)) =
        ((es.find? (fun e => e.id = pid)).bind (fun e => e.inventory)) := by
  intro es
  induction es with
  | nil => rfl
  | cons a rest ih =>
    unfold novaGo
    cases hstep : novaStep dmg rad f wo o a with
    | none =>
      dsimp only
      rw [List.find?_cons, List.find?_cons]
      cases hpa : (decide (a.id = pid)) with
      | true => rfl
      | false => exact ih
    | some tr =>
      obtain ⟨e', line, death⟩ := tr
      obtain ⟨hid, hinv, _⟩ := novaStep_pres dmg rad f wo o a e' line death hstep
      dsimp only
      rw [List.find?_cons, List.find?_cons]
      have hdec : (decide (e'.id = pid)) = (decide (a.id = pid)) := by rw [hid]
      rw [hdec]
      cases hpa : (decide (a.id = pid)) with
      | true =>
        dsimp only [Option.some_bind]
        exact hinv
      | false => exact ih

theorem novaGo_deaths_from (dmg rad : Int) (f : FloorId) (wo : World)
    (o : Point) :
    ∀ (es : List EntityRec) (dd : Nat × String),
      dd ∈ (novaGo dmg rad f wo o es).2.2.1 →
      ∃ e ∈ es, dd.1 = e.id ∧ e.monster.isSome = true := by
  intro es
  induction es with
  | nil => intro dd h; cases h
  | cons a rest ih =>
    intro dd h
    unfold novaGo at h
    cases hstep : novaStep dmg rad f wo o a with
    | none =>
      rw [hstep] at h
      obtain ⟨e, he, hdd⟩ := ih dd h
      exact ⟨e, List.mem_cons_of_mem _ he, hdd⟩
    | some tr =>
      obtain ⟨e', line, death⟩ := tr
      rw [hstep] at h
      dsimp only at h
      rcases List.mem_append.mp h with h' | h'
      · obtain ⟨_, _, hdeath⟩ := novaStep_pres dmg rad f wo o a e' line death hstep
        obtain ⟨h1, h2⟩ := hdeath dd h'
        exact ⟨a, List.mem_cons_self _ _, h1, h2⟩
      · obtain ⟨e, he, hdd⟩ := ih dd h'
        exact ⟨e, List.mem_cons_of_mem _ he, hdd⟩

theorem monster_none_updEnt (w : EcsWorld) (pid : Nat)
    (u : EntityRec → EntityRec) (hid : ∀ x, (u x).id = x.id)
    (hmu : ∀ x, (u x).monster = x.monster)
    (hmon : ∀ e ∈ w.entities, e.id = w.player → e.monster = none) :
    ∀ e ∈ (w.updEnt pid u).entities, e.id = (w.updEnt pid u).player →
      e.monster = none := by
  intro e he heid
  obtain ⟨x, hx, hxe⟩ := List.mem_map.mp he
  subst hxe
  rw [updEnt_player] at heid
  by_cases hxp : x.id = pid
  · rw [if_pos hxp] at heid ⊢
    rw [hmu x]
    rw [hid x] at heid
    exact hmon x hx heid
  · rw [if_neg hxp] at heid ⊢
    exact hmon x hx heid

theorem nova_playerInventory (w : EcsWorld) (dmg rad : Int) (f : FloorId)
    (wo : World)
    (hmon : ∀ e ∈ w.entities, e.id = w.player → e.monster = none) :
    (w.spectral_nova dmg rad f wo).2.playerInventory = w.playerInventory := by
  unfold EcsWorld.spectral_nova
  dsimp only
  unfold EcsWorld.playerInventory EcsWorld.findEnt
  dsimp only
  rw [find?_filter_of_imp _ _ _ (by
    intro x hx
    simp only [decide_eq_true_eq] at hx
    cases hany : ((novaGo dmg rad f wo w.player_point w.entities).2.2.1.any
        (fun d => d.1 = x.id)) with
    | false => rfl
    | true =>
      exfalso
      obtain ⟨dd, hdd, hddx⟩ := List.any_eq_true.mp hany
      simp only [decide_eq_true_eq] at hddx
      obtain ⟨e, he, h1, h2⟩ := novaGo_deaths_from dmg rad f wo
        w.player_point w.entities dd hdd
      have : e.monster = none := hmon e he (by rw [← h1, hddx, hx])
      rw [this] at h2
      cases h2)]
  exact novaGo_find_bind dmg rad f wo w.player_point w.player w.entities

theorem healPlayer_playerInventory (w : EcsWorld) (amount : Int) :
    (w.healPlayer amount).2.playerInventory = w.playerInventory := by
  unfold EcsWorld.healPlayer
  cases hs : w.statsOf w.player with
  | none => rfl
  | some st =>
    dsimp only
    exact playerInventory_updEnt w w.player _ (fun _ => rfl) (fun _ => rfl)

theorem set_player_position_playerInventory (w : EcsWorld) (p : Point)
    (f : FloorId) (wo : World) :
    (w.set_player_position p f wo).playerInventory = w.playerInventory :=
  playerInventory_updEnt w w.player _ (fun _ => rfl) (fun _ => rfl)

theorem blink_playerInventory (w : EcsWorld) (range : Int) (d : Dungeon)
    (f : FloorId) (wo : World) :
    (w.blink_destination range d f wo).2.playerInventory = w.playerInventory := by
  unfold EcsWorld.blink_destination
  dsimp only
  split <;> rfl

theorem playerSlots_of_inv (w : EcsWorld) (inv : Inventory)
    (h : w.playerInventory = some inv) : w.playerSlots = inv.slots := by
  unfold EcsWorld.playerSlots
  rw [h]
  rfl

theorem use_final (c : Prop) [Decidable c] (w2 : EcsWorld) (invSet : Inventory)
    (i : Nat) (hw2 : w2.playerInventory = some invSet)
    (hlen : i < invSet.slots.length) :
    (if c then removeSlotStep i w2 else w2).playerSlots =
      (if c then invSet.slots.eraseIdx i else invSet.slots) := by
  by_cases hc : c
  · rw [if_pos hc, if_pos hc]
    unfold removeSlotStep
    rw [hw2]
    dsimp only
    rw [if_pos hlen]
    exact playerSlots_of_inv _ _
      (setPlayerInventory_playerInventory w2 invSet _ hw2)
  · rw [if_neg hc, if_neg hc]
    exact playerSlots_of_inv _ _ hw2

/-- C10: every call of use_consumable that returns Some decrements the
chosen slot's uses_remaining by exactly one and deletes the slot once it
reaches zero, for every effect — including effects that change no other
game state.  The hypothesis is the store invariant that the player entity
carries no Monster component (so a Nova cannot delete the player's
record). -/
theorem use_consumable_decrements (w : EcsWorld) (d : Dungeon) (f : FloorId)
    (wo : World) (i : Nat) (msgs : List Msg) (w' : EcsWorld)
    (hmon : ∀ e ∈ w.entities, e.id = w.player → e.monster = none)
    (h : w.use_consumable i d f wo = (some msgs, w')) :
    ∃ s, w.playerSlots[i]? = some s ∧ 1 ≤ s.uses_remaining ∧
      w'.playerSlots =
        (if s.uses_remaining - 1 ≤ 0 then w.playerSlots.eraseIdx i
         else w.playerSlots.set i { s with
           uses_remaining := s.uses_remaining - 1 }) := by
  unfold EcsWorld.use_consumable at h
  cases hinv : w.playerInventory with
  | none =>
    rw [hinv] at h
    simp at h
  | some inv =>
    rw [hinv] at h
    dsimp only at h
    cases hslot : inv.slots[i]? with
    | none =>
      rw [hslot] at h
      simp at h
    | some slot =>
      rw [hslot] at h
      dsimp only at h
      by_cases huse : slot.uses_remaining ≤ 0
      · rw [if_pos huse] at h
        simp at h
      · rw [if_neg huse] at h
        try dsimp only at h
        rw [Prod.mk.injEq] at h
        obtain ⟨hmsgs, hw'⟩ := h
        have hps : w.playerSlots = inv.slots := playerSlots_of_inv w inv hinv
        have hlen : i < inv.slots.length := (List.getElem?_eq_some.mp hslot).1
        refine ⟨slot, by rw [hps]; exact hslot, by omega, ?_⟩
        rw [← hw', hps]
        have hmon1 : ∀ inv2 : Inventory,
            ∀ e ∈ (w.setPlayerInventory inv2).entities,
            e.id = (w.setPlayerInventory inv2).player → e.monster = none :=
          fun inv2 =>
            monster_none_updEnt w w.player _ (fun _ => rfl) (fun _ => rfl) hmon
        have hend : ∀ js : List InventorySlot, js = inv.slots →
            (if slot.uses_remaining - 1 ≤ 0 then js.eraseIdx i
              else js.set i { slot with
                uses_remaining := slot.uses_remaining - 1 }) =
            (if slot.uses_remaining - 1 ≤ 0
              then (inv.slots.set i { slot with
                uses_remaining := slot.uses_remaining - 1 }).eraseIdx i
              else inv.slots.set i { slot with
                uses_remaining := slot.uses_remaining - 1 }) := by
          intro js hjs
          subst hjs
          by_cases hrs : slot.uses_remaining - 1 ≤ 0
          · rw [if_pos hrs, if_pos hrs, eraseIdx_set]
          · rw [if_neg hrs, if_neg hrs]
        rw [hend inv.slots rfl]
        cases heff : slot.effect with
        | Heal amount =>
          dsimp only
          rw [use_final (slot.uses_remaining - 1 ≤ 0) _ _ i (by
            rw [healPlayer_playerInventory]
            exact setPlayerInventory_playerInventory w inv _ hinv) (by
            simpa using hlen)]
        | Cleanse =>
          dsimp only
          rw [use_final (slot.uses_remaining - 1 ≤ 0) _ _ i
            (setPlayerInventory_playerInventory w inv _ hinv) (by
            simpa using hlen)]
        | Blink range =>
          dsimp only
          cases hbd : ((w.setPlayerInventory ⟨inv.slots.set i
              { name := slot.name, description := slot.description,
                uses_remaining := slot.uses_remaining - 1,
                effect := InventoryEffect.Blink range,
                color := slot.color }⟩).blink_destination
                range d f wo).1 with
          | some dest =>
            dsimp only
            rw [use_final (slot.uses_remaining - 1 ≤ 0) _ _ i (by
              rw [set_player_position_playerInventory, blink_playerInventory]
              exact setPlayerInventory_playerInventory w inv _ hinv) (by
              simpa using hlen)]
          | none =>
            dsimp only
            rw [use_final (slot.uses_remaining - 1 ≤ 0) _ _ i (by
              rw [blink_playerInventory]
              exact setPlayerInventory_playerInventory w inv _ hinv) (by
              simpa using hlen)]
        | Nova damage radius =>
          dsimp only
          rw [use_final (slot.uses_remaining - 1 ≤ 0) _ _ i (by
            rw [nova_playerInventory _ _ _ _ _ (hmon1 _)]
            exact setPlayerInventory_playerInventory w inv _ hinv) (by
            simpa using hlen)]

theorem playerPos_updEnt (w : EcsWorld) (pid : Nat)
    (u : EntityRec → EntityRec) (hid : ∀ x, (u x).id = x.id)
    (hpos : ∀ x, (u x).position = x.position) :
    (w.updEnt pid u).playerPos = w.playerPos := by
  unfold EcsWorld.playerPos EcsWorld.findEnt EcsWorld.updEnt
  dsimp only
  rw [find?_map_pres_pred _ _ _ (by
    intro x
    by_cases hx : x.id = pid
    · simp [hx, hid]
    · simp [hx])]
  cases w.entities.find? (fun e => decide (e.id = w.player)) with
  | none => rfl
  | some e =>
    by_cases hx : e.id = pid
    · simp [hx, hpos e]
    · simp [hx]

theorem setPlayerInventory_playerPos (w : EcsWorld) (inv1 : Inventory) :
    (w.setPlayerInventory inv1).playerPos = w.playerPos :=
  playerPos_updEnt w w.player _ (fun _ => rfl) (fun _ => rfl)

theorem blink_playerPos (w : EcsWorld) (range : Int) (d : Dungeon)
    (f : FloorId) (wo : World) :
    (w.blink_destination range d f wo).2.playerPos = w.playerPos := by
  unfold EcsWorld.blink_destination
  dsimp only
  split
  · rfl
  · rfl

theorem set_player_position_player_point (w : EcsWorld) (p : Point)
    (f : FloorId) (wo : World) (h : w.playerPos.isSome = true) :
    (w.set_player_position p f wo).player_point = p := by
  unfold EcsWorld.playerPos EcsWorld.findEnt at h
  unfold EcsWorld.player_point EcsWorld.player_position EcsWorld.findEnt
    EcsWorld.set_player_position EcsWorld.updEnt
  dsimp only
  rw [find?_map_pres_pred _ _ _ (by
    intro x
    by_cases hx : x.id = w.player
    · simp [hx]
    · simp [hx])]
  cases hf : w.entities.find? (fun e => decide (e.id = w.player)) with
  | none =>
    rw [hf] at h
    simp at h
  | some e =>
    rw [hf] at h
    have heid : e.id = w.player := by simpa using List.find?_some hf
    cases hpos : e.position with
    | none =>
      simp [hpos] at h
    | some pos => simp [heid, hpos]

theorem removeSlotStep_player_point (i : Nat) (w : EcsWorld) :
    (removeSlotStep i w).player_point = w.player_point := by
  unfold removeSlotStep
  cases hpi : w.playerInventory with
  | none => rfl
  | some inv2 =>
    dsimp only
    split
    · exact setPlayerInventory_player_point w _
    · rfl

theorem blinkCandidates_setPlayerInventory (w : EcsWorld) (inv1 : Inventory)
    (range : Int) (d : Dungeon) (f : FloorId) (wo : World) :
    blinkCandidates (w.setPlayerInventory inv1) range d f wo =
      blinkCandidates w range d f wo := by
  unfold blinkCandidates
  simp only [setPlayerInventory_player_point, setPlayerInventory_entity_at]

theorem blinkCandidates_mem (w : EcsWorld) (range : Int) (d : Dungeon)
    (f : FloorId) (wo : World) (p : Point)
    (h : p ∈ blinkCandidates w range d f wo) :
    d.is_walkable f wo p = true ∧ w.entity_at p f wo = none ∧
      |p.x - w.player_point.x| ≤ range ∧ |p.y - w.player_point.y| ≤ range := by
  unfold blinkCandidates at h
  try dsimp only at h
  obtain ⟨dy, hdy, hp⟩ := mem_foldr_append _ _ _ h
  rw [List.mem_filterMap] at hp
  obtain ⟨dx, hdx, hpx⟩ := hp
  rw [intRange_mem] at hdx hdy
  try dsimp only at hpx
  split at hpx
  · rename_i hcond
    cases Option.some.inj hpx
    refine ⟨hcond.1, hcond.2, ?_, ?_⟩
    · dsimp only
      rw [abs_le]
      omega
    · dsimp only
      rw [abs_le]
      omega
  · cases hpx

theorem blink_destination_some_mem (w : EcsWorld) (range : Int) (d : Dungeon)
    (f : FloorId) (wo : World) (dest : Point)
    (h : (w.blink_destination range d f wo).1 = some dest) :
    dest ∈ blinkCandidates w range d f wo := by
  unfold EcsWorld.blink_destination at h
  dsimp only at h
  by_cases hemp : (blinkCandidates w range d f wo).isEmpty
  · rw [if_pos hemp] at h
    cases h
  · rw [if_neg hemp] at h
    dsimp only at h
    have hlen : 0 < (blinkCandidates w range d f wo).length := by
      cases hc : blinkCandidates w range d f wo with
      | nil => rw [hc] at hemp; exact absurd rfl hemp
      | cons a t => simp [hc]
    have hr := RNG.range_mem w.rng 0 (blinkCandidates w range d f wo).length
      (by exact_mod_cast hlen)
    have hd := Option.some.inj h
    have hvn : ((w.rng.range 0
        (blinkCandidates w range d f wo).length).1).toNat <
        (blinkCandidates w range d f wo).length := by omega
    rw [← hd, List.getD_eq_getElem?_getD, List.getElem?_eq_getElem hvn]
    exact List.getElem_mem _

theorem blink_none (w : EcsWorld) (range : Int) (d : Dungeon) (f : FloorId)
    (wo : World) (h : (w.blink_destination range d f wo).1 = none) :
    (w.blink_destination range d f wo).2 = w := by
  unfold EcsWorld.blink_destination at h ⊢
  dsimp only at h ⊢
  by_cases hemp : (blinkCandidates w range d f wo).isEmpty
  · rw [if_pos hemp]
  · rw [if_neg hemp] at h
    dsimp only at h
    cases h

/-- C8: whenever use_consumable applies Blink(range) and reports a blink,
the reported destination — which becomes the player's new position — is a
walkable, unoccupied tile on the active (floor, plane) within the square of
half-width range centered on the player's previous position; and when no
such tile exists within range the player does not move and the distinct
fizzle message is reported. -/
theorem use_consumable_blink (w : EcsWorld) (d : Dungeon) (f : FloorId)
    (wo : World) (i : Nat) (s : InventorySlot) (range : Int)
    (msgs : List Msg) (w' : EcsWorld)
    (hslot : w.playerSlots[i]? = some s)
    (heff : s.effect = .Blink range)
    (hppos : w.playerPos.isSome = true)
    (h : w.use_consumable i d f wo = (some msgs, w')) :
    (∀ dest, Msg.blinkTo dest ∈ msgs →
        d.is_walkable f wo dest = true ∧
        w.entity_at dest f wo = none ∧
        |dest.x - w.player_point.x| ≤ range ∧
        |dest.y - w.player_point.y| ≤ range ∧
        w'.player_point = dest) ∧
    ((∀ p : Point, |p.x - w.player_point.x| ≤ range →
        |p.y - w.player_point.y| ≤ range →
        ¬(d.is_walkable f wo p = true ∧ w.entity_at p f wo = none)) →
      Msg.blinkFizzle ∈ msgs ∧ w'.player_point = w.player_point) := by
  unfold EcsWorld.use_consumable at h
  cases hinv : w.playerInventory with
  | none =>
    rw [hinv] at h
    simp at h
  | some inv =>
    rw [hinv] at h
    dsimp only at h
    have hps : w.playerSlots = inv.slots := playerSlots_of_inv w inv hinv
    rw [hps] at hslot
    rw [hslot] at h
    dsimp only at h
    by_cases huse : s.uses_remaining ≤ 0
    · rw [if_pos huse] at h
      simp at h
    · rw [if_neg huse] at h
      try dsimp only at h
      rw [heff] at h
      try dsimp only at h
      rw [Prod.mk.injEq] at h
      obtain ⟨hmsgs, hw'⟩ := h
      have hm := Option.some.inj hmsgs
      subst hw'
      subst hm
      cases hbd : ((w.setPlayerInventory ⟨inv.slots.set i
          { name := s.name, description := s.description,
            uses_remaining := s.uses_remaining - 1,
            effect := InventoryEffect.Blink range,
            color := s.color }⟩).blink_destination range d f wo).1 with
      | some dest0 =>
        dsimp only
        have hmem := blink_destination_some_mem _ _ _ _ _ _ hbd
        rw [blinkCandidates_setPlayerInventory] at hmem
        obtain ⟨hwk, hocc, hdx, hdy⟩ := blinkCandidates_mem _ _ _ _ _ _ hmem
        have hpos2 : ((w.setPlayerInventory ⟨inv.slots.set i
            { name := s.name, description := s.description,
              uses_remaining := s.uses_remaining - 1,
              effect := InventoryEffect.Blink range,
              color := s.color }⟩).blink_destination range d f
                wo).2.playerPos.isSome = true := by
          rw [blink_playerPos, setPlayerInventory_playerPos]
          exact hppos
        have hspp := set_player_position_player_point _ dest0 f wo hpos2
        have hplayerpt : (if s.uses_remaining - 1 ≤ 0
            then removeSlotStep i (((w.setPlayerInventory ⟨inv.slots.set i
              { name := s.name, description := s.description,
                uses_remaining := s.uses_remaining - 1,
                effect := InventoryEffect.Blink range,
                color := s.color }⟩).blink_destination range d f
                  wo).2.set_player_position dest0 f wo)
            else ((w.setPlayerInventory ⟨inv.slots.set i
              { name := s.name, description := s.description,
                uses_remaining := s.uses_remaining - 1,
                effect := InventoryEffect.Blink range,
                color := s.color }⟩).blink_destination range d f
                  wo).2.set_player_position dest0 f wo).player_point =
            dest0 := by
          by_cases hrs : s.uses_remaining - 1 ≤ 0
          · rw [if_pos hrs, removeSlotStep_player_point]
            exact hspp
          · rw [if_neg hrs]
            exact hspp
        constructor
        · intro dest hdest
          have hde : dest = dest0 := by
            rcases List.mem_cons.mp hdest with h1 | h1
            · simp at h1
            · rcases List.mem_cons.mp h1 with h2 | h2
              · exact Msg.blinkTo.inj h2
              · exact absurd h2 (List.not_mem_nil _)
          subst hde
          exact ⟨hwk, hocc, hdx, hdy, hplayerpt⟩
        · intro hno
          exact absurd ⟨hwk, hocc⟩ (hno dest0 hdx hdy)
      | none =>
        dsimp only
        have hbd2 := blink_none _ _ _ _ _ hbd
        constructor
        · intro dest hdest
          simp at hdest
        · intro hno
          refine ⟨by simp, ?_⟩
          rw [hbd2]
          by_cases hrs : s.uses_remaining - 1 ≤ 0
          · rw [if_pos hrs, removeSlotStep_player_point,
              setPlayerInventory_player_point]
          · rw [if_neg hrs, setPlayerInventory_player_point]

set_option maxRecDepth 100000 in
/-- Witness for C8: the player on the tiny all-floor dungeon blinks with a
Blink(2) slot; the reported destination is walkable, unoccupied, within the
2-square, and becomes the player's position. -/
theorem use_consumable_blink_witness :
    (∀ dest, Msg.blinkTo dest ∈ (w_blink.use_consumable 0 d_small 0 .Red).1.iget →
        d_small.is_walkable 0 .Red dest = true ∧
        w_blink.entity_at dest 0 .Red = none ∧
        |dest.x - w_blink.player_point.x| ≤ 2 ∧
        |dest.y - w_blink.player_point.y| ≤ 2 ∧
        ((w_blink.use_consumable 0 d_small 0 .Red).2).player_point = dest) ∧
    ((∀ p : Point, |p.x - w_blink.player_point.x| ≤ 2 →
        |p.y - w_blink.player_point.y| ≤ 2 →
        ¬(d_small.is_walkable 0 .Red p = true ∧
          w_blink.entity_at p 0 .Red = none)) →
      Msg.blinkFizzle ∈ (w_blink.use_consumable 0 d_small 0 .Red).1.iget ∧
      ((w_blink.use_consumable 0 d_small 0 .Red).2).player_point =
        w_blink.player_point) :=
  use_consumable_blink w_blink d_small 0 .Red 0 slotBlink 2
    (w_blink.use_consumable 0 d_small 0 .Red).1.iget
    (w_blink.use_consumable 0 d_small 0 .Red).2
    (by decide) rfl (by decide) (by decide)

/-- Witness for C10: using the Heal slot (1 use) returns Some and the
exhausted slot is deleted, leaving an empty inventory. -/
theorem use_consumable_decrements_witness :
    ∃ s, w_inv.playerSlots[0]? = some s ∧ 1 ≤ s.uses_remaining ∧
      ((w_inv.use_consumable 0 d_small 0 .Red).2).playerSlots =
        (if s.uses_remaining - 1 ≤ 0 then w_inv.playerSlots.eraseIdx 0
         else w_inv.playerSlots.set 0 { s with
           uses_remaining := s.uses_remaining - 1 }) :=
  use_consumable_decrements w_inv d_small 0 .Red 0
    (w_inv.use_consumable 0 d_small 0 .Red).1.iget
    (w_inv.use_consumable 0 d_small 0 .Red).2 (by decide) (by decide)

end RainbowRogue
